import Mathlib

/-!
Wave generator: embedding of `waveform_generator.cpp`.

The program samples a sine and a square wave, multiplies them element by
element and reports a mean and a sum over two quarter windows.

Conventions of the embedding:

* `double` values are elements of a linear ordered field `α` (exact arithmetic);
  the theorems about `sin` instantiate `α` with `ℝ`. Rounding is modelled where
  it decides what the program does or what is asked: the clock of `show_samples`
  is a `Binary64`, and so is the mean of identical values.
* `toDouble : α → Binary64` gives the double the program holds for an exact
  value (a literal, or the quotient `1.0 / sampling_freq`); on `ℚ` it is
  `Binary64.ofRat`, the nearest double.
* `sin` of `<cmath>` is a parameter `sinF : α → α`; the theorems about its
  values instantiate it with `Real.sin`.
* `vector<double>` is `List α`, `push_back x` is `· ++ [x]`.
* `int` counters and lengths are `Nat` (every counter of the program stays
  between `0` and `SIZE`).
* A read outside a vector, which the C++ leaves undefined, is `none`.
* A member the constructor leaves uninitialised (`time_interval`) is `none`
  until `generate` assigns it.
-/

namespace WaveGen

variable {α : Type} [LinearOrderedField α]

/-- The macro `#define SIZE 501`. -/
def SIZE : Nat := 501

/-- The macro `#define PI 3.1415926`. -/
def PI : α := 3.1415926

/-- The macro `#define DIFF 0.01`. -/
def DIFF : α := 0.01

/-- The macro `#define DURATION 1.0`. -/
def DURATION : α := 1.0

/-- The phase angle both `generate` methods start with:
`(phase_offset == 90.0) ? PI / 2.0 : 0.0`. -/
def theta (phase_offset : α) : α :=
  if phase_offset = 90.0 then PI / 2.0 else 0.0

/-- The value of the local `t` at the start of iteration `i` of a loop that
begins with `t = 0.0` and ends every iteration with `t += time_interval`. -/
def timeAt (time_interval : α) : Nat → α
  | 0 => 0.0
  | i + 1 => timeAt time_interval i + time_interval

/-! ## SineWave -/

/-- Fields of `class SineWave : public Wave`. -/
structure SineWave (α : Type) where
  frequency : α
  amplitude : α
  phase_offset : α
  sampling_freq : α
  time_interval : Option α
  sample_index : Int
  samples : List α

/-- Constructor `SineWave(freq, amp, phase, samp_freq)`: `sample_index = 0`,
`samples` empty, `time_interval` not initialised. -/
def SineWave.init (freq amp phase samp_freq : α) : SineWave α :=
  { frequency := freq, amplitude := amp, phase_offset := phase,
    sampling_freq := samp_freq, time_interval := none, sample_index := 0,
    samples := [] }

/-- The `for (int i = 0; i < SIZE; ++i)` loop of `SineWave::generate`, from
counter value `i` on; `t` and `samples` are the loop state. -/
def SineWave.generateLoop (sinF : α → α) (amplitude frequency theta time_interval : α)
    (i : Nat) (t : α) (samples : List α) : List α :=
  if i < SIZE then
    SineWave.generateLoop sinF amplitude frequency theta time_interval (i + 1)
      (t + time_interval)
      (samples ++ [amplitude * sinF ((2 * PI * frequency * t) + theta)])
  else samples
termination_by SIZE - i

/-- Method `SineWave::generate`: sets `time_interval` and appends `SIZE` samples. -/
def SineWave.generate (sinF : α → α) (w : SineWave α) : SineWave α :=
  let theta : α := if w.phase_offset = 90.0 then PI / 2.0 else 0.0
  let t : α := 0.0
  let time_interval : α := 1.0 / w.sampling_freq
  { w with
    time_interval := some time_interval
    samples := SineWave.generateLoop sinF w.amplitude w.frequency theta time_interval 0 t
      w.samples }

/-! ## SquareWave -/

/-- Fields of `class SquareWave : public Wave`. -/
structure SquareWave (α : Type) where
  frequency : α
  amplitude : α
  phase_offset : α
  sampling_freq : α
  time_interval : Option α
  sample_index : Int
  samples : List α

/-- Constructor `SquareWave(freq, amp, phase, samp_freq)`. -/
def SquareWave.init (freq amp phase samp_freq : α) : SquareWave α :=
  { frequency := freq, amplitude := amp, phase_offset := phase,
    sampling_freq := samp_freq, time_interval := none, sample_index := 0,
    samples := [] }

/-- Method `SquareWave::sign`; the member `amplitude` it reads is the first argument. -/
def SquareWave.sign (amplitude val : α) : α :=
  if val > 0 then amplitude
  else if val < 0 then -amplitude
  else 0.0

/-- The `for` loop of `SquareWave::generate`, from counter value `i` on. -/
def SquareWave.generateLoop (sinF : α → α) (amplitude frequency theta time_interval : α)
    (i : Nat) (t : α) (samples : List α) : List α :=
  if i < SIZE then
    let result : α := amplitude * sinF ((2 * PI * frequency * t) + theta)
    SquareWave.generateLoop sinF amplitude frequency theta time_interval (i + 1)
      (t + time_interval)
      (samples ++ [SquareWave.sign amplitude result])
  else samples
termination_by SIZE - i

/-- Method `SquareWave::generate`: sets `time_interval` and appends `SIZE` samples. -/
def SquareWave.generate (sinF : α → α) (w : SquareWave α) : SquareWave α :=
  let theta : α := if w.phase_offset = 90.0 then PI / 2.0 else 0.0
  let t : α := 0.0
  let time_interval : α := 1.0 / w.sampling_freq
  { w with
    time_interval := some time_interval
    samples := SquareWave.generateLoop sinF w.amplitude w.frequency theta time_interval 0 t
      w.samples }

/-- The value `SineWave::generate` pushes in iteration `i`. -/
def sineValue (sinF : α → α) (w : SineWave α) (i : Nat) : α :=
  w.amplitude * sinF ((2 * PI * w.frequency * timeAt (1.0 / w.sampling_freq) i)
    + theta w.phase_offset)

/-- The value `result` that `SquareWave::generate` computes in iteration `i`. -/
def squareUnderlying (sinF : α → α) (w : SquareWave α) (i : Nat) : α :=
  w.amplitude * sinF ((2 * PI * w.frequency * timeAt (1.0 / w.sampling_freq) i)
    + theta w.phase_offset)

/-! ## Doubles

Used where rounding decides what the program does: the clock of `show_samples`, and
exact equality of a computed mean. The finite binary64 numbers of the normal range,
with round-to-nearest, ties-to-even (overflow, subnormals and the sign of zero are left
out). -/

/-- A finite binary64 value `(-1)^neg * m * 2^e`, with `m = 0` or
`2^52 ≤ m < 2^53`. -/
structure Binary64 where
  neg : Bool
  m : Nat
  e : Int
deriving DecidableEq

/-- The rational number a binary64 value stands for. -/
def Binary64.toRat (x : Binary64) : ℚ :=
  (if x.neg then -1 else 1) * (x.m : ℚ) * (2 : ℚ) ^ x.e

/-- Helper of `Binary64.ilog2`, recursive on the fuel. -/
def Binary64.ilog2Aux : Nat → Nat → Nat
  | 0, _ => 0
  | fuel + 1, n => if n < 2 then 0 else Binary64.ilog2Aux fuel (n / 2) + 1

/-- Floor of the binary logarithm of `n ≥ 1`: the position of the leading bit. -/
def Binary64.ilog2 (n : Nat) : Nat := Binary64.ilog2Aux n n

/-- Floor of `(p / d) * 2^s`. -/
def Binary64.scaled (p d : Nat) (s : Int) : Nat :=
  if 0 ≤ s then (p * 2 ^ s.toNat) / d else p / (d * 2 ^ (-s).toNat)

/-- Rounding of `(p / d) * 2^s1` to the nearest integer `m`, a tie going to the even
one; the result is the pair `(m, -s1)`, renormalised when `m` reaches `2^53`. -/
def Binary64.roundAt (p d : Nat) (s1 : Int) : Nat × Int :=
  let num : Nat := if 0 ≤ s1 then p * 2 ^ s1.toNat else p
  let den : Nat := if 0 ≤ s1 then d else d * 2 ^ (-s1).toNat
  let n : Nat := num / den
  let r : Nat := num % den
  let m : Nat := if 2 * r < den then n else if den < 2 * r then n + 1
    else if n % 2 = 0 then n else n + 1
  if m = 2 ^ 53 then (2 ^ 52, 1 - s1) else (m, -s1)

/-- Mantissa and exponent of the binary64 value nearest to `p / d` (`p, d ≥ 1`): the
quotient is scaled by the power `2^s1` that brings it into `[2^52, 2^53)`, then
rounded by `roundAt`. -/
def Binary64.roundFrac (p d : Nat) : Nat × Int :=
  let s : Int := 53 + (Binary64.ilog2 d : Int) - (Binary64.ilog2 p : Int)
  Binary64.roundAt p d (if Binary64.scaled p d s < 2 ^ 53 then s else s - 1)

/-- The binary64 value nearest to `(-1)^neg * p / d`: how a decimal literal such as
`0.1` is read, and how every arithmetic result is rounded. -/
def Binary64.ofFrac (neg : Bool) (p d : Nat) : Binary64 :=
  if p = 0 then { neg := false, m := 0, e := 0 }
  else { neg := neg, m := (Binary64.roundFrac p d).1, e := (Binary64.roundFrac p d).2 }

/-- The literal `0.0`. -/
def Binary64.zero : Binary64 := { neg := false, m := 0, e := 0 }

/-- Addition of doubles, `x + y`: the exact sum, rounded. -/
def Binary64.add (x y : Binary64) : Binary64 :=
  let e0 : Int := min x.e y.e
  let X : Int := (if x.neg then -1 else 1) * (x.m * 2 ^ (x.e - e0).toNat : Nat)
  let Y : Int := (if y.neg then -1 else 1) * (y.m * 2 ^ (y.e - e0).toNat : Nat)
  let S : Int := X + Y
  if 0 ≤ e0 then Binary64.ofFrac (decide (S < 0)) (S.natAbs * 2 ^ e0.toNat) 1
  else Binary64.ofFrac (decide (S < 0)) S.natAbs (2 ^ (-e0).toNat)

/-- Division of a double by an `int` (converted exactly), `x / n`: the exact quotient,
rounded; no finite value when `n = 0`, as in `divInt`. -/
def Binary64.divInt (x : Binary64) (n : Nat) : Option Binary64 :=
  if n = 0 then none
  else if 0 ≤ x.e then some (Binary64.ofFrac x.neg (x.m * 2 ^ x.e.toNat) n)
  else some (Binary64.ofFrac x.neg x.m (n * 2 ^ (-x.e).toNat))

/-- Comparison of doubles, `x < y`. -/
def Binary64.lt (x y : Binary64) : Bool :=
  let e0 : Int := min x.e y.e
  let X : Int := (if x.neg then -1 else 1) * (x.m * 2 ^ (x.e - e0).toNat : Nat)
  let Y : Int := (if y.neg then -1 else 1) * (y.m * 2 ^ (y.e - e0).toNat : Nat)
  decide (X < Y)

/-- The double nearest to a rational number. -/
def Binary64.ofRat (q : ℚ) : Binary64 :=
  Binary64.ofFrac (decide (q < 0)) q.num.natAbs q.den

/-- The value of the local double `t` of `show_samples` at the start of iteration `i`:
`t = 0.0`, then one rounded addition `t += time_interval` per iteration. -/
def Binary64.clockAt (time_interval : Binary64) : Nat → Binary64
  | 0 => Binary64.zero
  | i + 1 => Binary64.add (Binary64.clockAt time_interval i) time_interval

/-- The call `std::accumulate(seq.begin() + first, seq.begin() + last, init)` of
`accumulate`, on doubles: every `init + *first` is rounded. -/
def accumulateBinary64 (seq : List Binary64) (first last : Nat) (init : Binary64) :
    Option Binary64 :=
  if first = last then some init
  else if h : first < seq.length then
    accumulateBinary64 seq (first + 1) last (Binary64.add init seq[first])
  else none
termination_by seq.length - first

/-! ## show_samples -/

/-- The `for` loop shared verbatim by `SineWave::show_samples` and
`SquareWave::show_samples`, from counter value `i` on; `out` collects the
values written to `cout`. The clock `t` is the program's double: the test
`t > DURATION + DIFF` and the step `t += time_interval` are those of doubles, and
`toDouble` gives the double a literal or a quotient is rounded to.
Reading `samples[i]` past the end is undefined. -/
def showLoop (toDouble : α → Binary64) (samples : List α) (time_interval : Binary64)
    (i : Nat) (t : Binary64) (out : List α) : Option (List α) :=
  if i < SIZE then
    if Binary64.lt (Binary64.add (toDouble DURATION) (toDouble DIFF)) t then some out
    else
      match samples[i]? with
      | some x =>
        showLoop toDouble samples time_interval (i + 1) (Binary64.add t time_interval)
          (out ++ [x])
      | none => none
  else some out
termination_by SIZE - i

/-- Method `SineWave::show_samples`: the sample values printed, in order. `toDouble`
gives the doubles the program holds for the member `time_interval` and for the
literals `DURATION` and `DIFF`. -/
def SineWave.show_samples (toDouble : α → Binary64) (w : SineWave α) : Option (List α) :=
  match w.time_interval with
  | some time_interval =>
    showLoop toDouble w.samples (toDouble time_interval) 0 Binary64.zero []
  | none => none

/-- Method `SquareWave::show_samples`: the sample values printed, in order. `toDouble`
gives the doubles the program holds for the member `time_interval` and for the
literals `DURATION` and `DIFF`. -/
def SquareWave.show_samples (toDouble : α → Binary64) (w : SquareWave α) :
    Option (List α) :=
  match w.time_interval with
  | some time_interval =>
    showLoop toDouble w.samples (toDouble time_interval) 0 Binary64.zero []
  | none => none

/-! ## main: mixing and window statistics -/

/-- The mixing loop of `main`, `for (int i = 0; i < max_len; ++i)`, from counter
value `i` on, over the two sample vectors `a` and `b`. -/
def mixLoop (a b : List α) (max_len : Nat) (i : Nat) (mixed_signal : List α) :
    Option (List α) :=
  if i < max_len then
    match a[i]?, b[i]? with
    | some x, some y => mixLoop a b max_len (i + 1) (mixed_signal ++ [x * y])
    | _, _ => none
  else some mixed_signal
termination_by max_len - i

/-- Lines 137-144 of `main` for two sample vectors `a` and `b`:
`max_len = min(a.size(), b.size())` and the mixing loop from an empty vector. -/
def combine (a b : List α) : Option (List α) :=
  let max_len := min a.length b.length
  mixLoop a b max_len 0 []

/-- The call `std::accumulate(seq.begin() + first, seq.begin() + last, init)`: while
`first != last`, add `*first` to `init` and advance; dereferencing at or past
the end is undefined. -/
def accumulate (seq : List α) (first last : Nat) (init : α) : Option α :=
  if first = last then some init
  else if h : first < seq.length then
    accumulate seq (first + 1) last (init + seq[first])
  else none
termination_by seq.length - first

/-- Division of a `double` by an `int`, as in `... / quarter_len`: no real value
when the divisor is `0`. -/
def divInt (x : α) (n : Nat) : Option α :=
  if n = 0 then none else some (x / (n : α))

/-- What lines 152-159 of `main` compute. -/
structure Stats (α : Type) where
  quarter_len : Nat
  mean : Option α
  integral : α

/-- Lines 152-159 of `main` for a mixed signal and the `max_len` it was built
with. -/
def windowStats (mixed_signal : List α) (max_len : Nat) : Option (Stats α) :=
  let quarter_len := max_len / 4
  match accumulate mixed_signal 0 quarter_len 0.0 with
  | none => none
  | some total =>
    match accumulate mixed_signal quarter_len (2 * quarter_len) 0.0 with
    | none => none
    | some integral =>
      some { quarter_len := quarter_len, mean := divInt total quarter_len,
             integral := integral }

/-- Everything `main` writes to `cout`, in order. -/
structure Output (α : Type) where
  sine_dump : List α
  square_dump : List α
  mixed_signal : List α
  stats : Stats α

/-- The function `main`: the two waves are generated and dumped, then mixed, then the
window statistics are taken. `toDouble` is the rounding of `show_samples`. -/
def main (toDouble : α → Binary64) (sinF : α → α) : Option (Output α) :=
  let sine_wave := SineWave.generate sinF (SineWave.init 10 3 90 200)
  match SineWave.show_samples toDouble sine_wave with
  | none => none
  | some sine_dump =>
    let square_wave := SquareWave.generate sinF (SquareWave.init 40 1 0 200)
    match SquareWave.show_samples toDouble square_wave with
    | none => none
    | some square_dump =>
      let max_len := min sine_wave.samples.length square_wave.samples.length
      match mixLoop sine_wave.samples square_wave.samples max_len 0 [] with
      | none => none
      | some mixed_signal =>
        match windowStats mixed_signal max_len with
        | none => none
        | some stats =>
          some { sine_dump := sine_dump, square_dump := square_dump,
                 mixed_signal := mixed_signal, stats := stats }

/-- Spec-side clock of the refinement claim C14, in the words of the specification:
given the sampling frequency `fs` and the 0-based sample index `i`, the time is
`t_i = i * (1/fs)`. The code has no such function: it accumulates `t`, see `timeAt`. -/
def SampleClock_spec (fs : α) (i : Nat) : α :=
  (i : α) * (1 / fs)

/-! ## Lemmas on the loops -/

theorem zero_lit : (0.0 : α) = 0 := by norm_num

theorem one_lit : (1.0 : α) = 1 := by norm_num

theorem two_lit : (2.0 : α) = 2 := by norm_num

theorem ninety_lit : (90.0 : α) = 90 := by norm_num

theorem timeAt_eq (dt : α) (i : Nat) : timeAt dt i = (i : α) * dt := by
  induction i with
  | zero => simp [timeAt, zero_lit]
  | succ k ih => rw [timeAt, ih]; push_cast; ring

/-- The list a loop that pushes `val t` and advances `t` by `dt` appends in `n`
iterations started at time `t`. -/
theorem sine_loop_eq (sinF : α → α) (A f th dt : α) (n : Nat) :
    ∀ (i : Nat) (t : α) (s : List α), SIZE - i = n →
      SineWave.generateLoop sinF A f th dt i t s =
        s ++ (List.range n).map
          (fun k => A * sinF ((2 * PI * f * (t + timeAt dt k)) + th)) := by
  induction n with
  | zero =>
    intro i t s h
    rw [SineWave.generateLoop, if_neg (by omega)]
    simp
  | succ n ih =>
    intro i t s h
    rw [SineWave.generateLoop, if_pos (by omega), ih (i + 1) (t + dt) _ (by omega)]
    have h0 : t + timeAt dt 0 = t := by simp [timeAt, zero_lit]
    have hk : ∀ k, t + timeAt dt (k + 1) = t + dt + timeAt dt k := by
      intro k; rw [timeAt]; ring
    simp only [List.range_succ_eq_map, List.map_cons, List.map_map, List.append_assoc,
      List.singleton_append, Function.comp_def, Nat.succ_eq_add_one, hk, h0]

theorem square_loop_eq (sinF : α → α) (A f th dt : α) (n : Nat) :
    ∀ (i : Nat) (t : α) (s : List α), SIZE - i = n →
      SquareWave.generateLoop sinF A f th dt i t s =
        s ++ (List.range n).map
          (fun k => SquareWave.sign A (A * sinF ((2 * PI * f * (t + timeAt dt k)) + th))) := by
  induction n with
  | zero =>
    intro i t s h
    rw [SquareWave.generateLoop, if_neg (by omega)]
    simp
  | succ n ih =>
    intro i t s h
    rw [SquareWave.generateLoop, if_pos (by omega)]
    simp only []
    rw [ih (i + 1) (t + dt) _ (by omega)]
    have h0 : t + timeAt dt 0 = t := by simp [timeAt, zero_lit]
    have hk : ∀ k, t + timeAt dt (k + 1) = t + dt + timeAt dt k := by
      intro k; rw [timeAt]; ring
    simp only [List.range_succ_eq_map, List.map_cons, List.map_map, List.append_assoc,
      List.singleton_append, Function.comp_def, Nat.succ_eq_add_one, hk, h0]

theorem sine_generate_samples (sinF : α → α) (w : SineWave α) :
    (SineWave.generate sinF w).samples =
      w.samples ++ (List.range SIZE).map (fun i => sineValue sinF w i) := by
  simp only [SineWave.generate]
  rw [sine_loop_eq sinF _ _ _ _ SIZE 0 _ _ (by simp)]
  simp only [zero_lit, zero_add, sineValue, theta]

theorem square_generate_samples (sinF : α → α) (w : SquareWave α) :
    (SquareWave.generate sinF w).samples =
      w.samples ++ (List.range SIZE).map
        (fun i => SquareWave.sign w.amplitude (squareUnderlying sinF w i)) := by
  simp only [SquareWave.generate]
  rw [square_loop_eq sinF _ _ _ _ SIZE 0 _ _ (by simp)]
  simp only [zero_lit, zero_add, squareUnderlying, theta]

theorem sine_generate_getElem? (sinF : α → α) (w : SineWave α) (hw : w.samples = [])
    (i : Nat) (hi : i < SIZE) :
    (SineWave.generate sinF w).samples[i]? = some (sineValue sinF w i) := by
  rw [sine_generate_samples, hw, List.nil_append, List.getElem?_map,
    List.getElem?_range hi, Option.map_some']

theorem square_generate_getElem? (sinF : α → α) (w : SquareWave α) (hw : w.samples = [])
    (i : Nat) (hi : i < SIZE) :
    (SquareWave.generate sinF w).samples[i]? =
      some (SquareWave.sign w.amplitude (squareUnderlying sinF w i)) := by
  rw [square_generate_samples, hw, List.nil_append, List.getElem?_map,
    List.getElem?_range hi, Option.map_some']

theorem mixLoop_eq (a b : List α) (max_len : Nat) (ha : max_len ≤ a.length)
    (hb : max_len ≤ b.length) (n : Nat) :
    ∀ (i : Nat) (m : List α), max_len - i = n →
      mixLoop a b max_len i m =
        some (m ++ (List.range n).map (fun k => a.getD (i + k) 0 * b.getD (i + k) 0)) := by
  induction n with
  | zero =>
    intro i m h
    rw [mixLoop, if_neg (by omega)]
    simp
  | succ n ih =>
    intro i m h
    have hia : i < a.length := by omega
    have hib : i < b.length := by omega
    rw [mixLoop, if_pos (by omega), List.getElem?_eq_getElem hia,
      List.getElem?_eq_getElem hib]
    simp only []
    rw [ih (i + 1) _ (by omega)]
    have hk : ∀ k, i + 1 + k = i + (k + 1) := by intro k; omega
    simp only [List.range_succ_eq_map, List.map_cons, List.map_map, List.append_assoc,
      List.singleton_append, Function.comp_def, Nat.succ_eq_add_one, hk, Nat.add_zero,
      List.getD_eq_getElem?_getD, List.getElem?_eq_getElem hia,
      List.getElem?_eq_getElem hib, Option.getD_some]

theorem combine_eq (a b : List α) :
    combine a b = some ((List.range (min a.length b.length)).map
      (fun k => a.getD k 0 * b.getD k 0)) := by
  simp only [combine]
  rw [mixLoop_eq a b _ (Nat.min_le_left _ _) (Nat.min_le_right _ _)
    (min a.length b.length) 0 [] (by simp)]
  simp

theorem accumulate_eq (seq : List α) (n : Nat) :
    ∀ (first last : Nat) (init : α), last - first = n → first ≤ last →
      last ≤ seq.length →
      accumulate seq first last init =
        some (init + ∑ k in Finset.Ico first last, seq.getD k 0) := by
  induction n with
  | zero =>
    intro first last init h h1 h2
    have : first = last := by omega
    subst this
    rw [accumulate, if_pos rfl]
    simp
  | succ n ih =>
    intro first last init h h1 h2
    have hlt : first < last := by omega
    have hlen : first < seq.length := by omega
    rw [accumulate, if_neg (by omega), dif_pos hlen,
      ih (first + 1) last _ (by omega) (by omega) h2,
      Finset.sum_eq_sum_Ico_succ_bot hlt]
    simp only [List.getD_eq_getElem?_getD, List.getElem?_eq_getElem hlen, Option.getD_some,
      add_assoc]

theorem windowStats_eq (mixed_signal : List α) (max_len : Nat)
    (h : max_len ≤ mixed_signal.length) :
    windowStats mixed_signal max_len =
      some { quarter_len := max_len / 4
             mean := divInt (∑ k in Finset.Ico 0 (max_len / 4), mixed_signal.getD k 0)
               (max_len / 4)
             integral := ∑ k in Finset.Ico (max_len / 4) (2 * (max_len / 4)),
               mixed_signal.getD k 0 } := by
  simp only [windowStats]
  rw [accumulate_eq mixed_signal (max_len / 4) 0 (max_len / 4) _ (by omega) (by omega)
      (by omega),
    accumulate_eq mixed_signal (max_len / 4) (max_len / 4) (2 * (max_len / 4)) _ (by omega)
      (by omega) (by omega)]
  simp only [zero_lit, zero_add]

theorem showLoop_eq (toDouble : α → Binary64) (samples : List α) (dt : Binary64)
    (cut : Nat)
    (hbelow : ∀ k, k < cut →
      Binary64.lt (Binary64.add (toDouble DURATION) (toDouble DIFF)) (Binary64.clockAt dt k)
        = false)
    (hcut : cut < SIZE →
      Binary64.lt (Binary64.add (toDouble DURATION) (toDouble DIFF)) (Binary64.clockAt dt cut)
        = true)
    (hsize : cut ≤ SIZE) (hlen : cut ≤ samples.length) (n : Nat) :
    ∀ (i : Nat) (out : List α), cut - i = n → i ≤ cut →
      showLoop toDouble samples dt i (Binary64.clockAt dt i) out =
        some (out ++ (List.range n).map (fun k => samples.getD (i + k) 0)) := by
  induction n with
  | zero =>
    intro i out h hi
    have hic : i = cut := by omega
    subst hic
    rw [showLoop]
    by_cases hs : i < SIZE
    · rw [if_pos hs, if_pos (hcut hs)]; simp
    · rw [if_neg hs]; simp
  | succ n ih =>
    intro i out h hi
    have hil : i < samples.length := by omega
    have hnot : ¬ Binary64.lt (Binary64.add (toDouble DURATION) (toDouble DIFF))
        (Binary64.clockAt dt i) = true := by
      rw [hbelow i (by omega)]; exact Bool.false_ne_true
    rw [showLoop, if_pos (by omega), if_neg hnot, List.getElem?_eq_getElem hil]
    simp only []
    have ht : Binary64.add (Binary64.clockAt dt i) dt = Binary64.clockAt dt (i + 1) := rfl
    rw [ht, ih (i + 1) _ (by omega) (by omega)]
    have hk : ∀ k, i + 1 + k = i + (k + 1) := by intro k; omega
    simp only [List.range_succ_eq_map, List.map_cons, List.map_map, List.append_assoc,
      List.singleton_append, Function.comp_def, Nat.succ_eq_add_one, hk, Nat.add_zero,
      List.getD_eq_getElem?_getD, List.getElem?_eq_getElem hil, Option.getD_some]

/-- The first index below `n` at which a test holds, or `n` when there is none. -/
theorem first_exceed (q : ℕ → Bool) (n : ℕ) :
    ∃ c, c ≤ n ∧ (∀ k, k < c → q k = false) ∧ (c < n → q c = true) := by
  induction n with
  | zero => exact ⟨0, le_rfl, fun k hk => absurd hk (Nat.not_lt_zero k),
      fun h => absurd h (Nat.lt_irrefl 0)⟩
  | succ n ih =>
    obtain ⟨c, hc, hb, ht⟩ := ih
    by_cases hcn : c < n
    · exact ⟨c, by omega, hb, fun _ => ht hcn⟩
    · have hcn2 : c = n := by omega
      subst hcn2
      by_cases hq : q c = true
      · exact ⟨c, by omega, hb, fun _ => hq⟩
      · refine ⟨c + 1, le_rfl, ?_, fun h => absurd h (Nat.lt_irrefl _)⟩
        intro k hk
        by_cases hkc : k < c
        · exact hb k hkc
        · have : k = c := by omega
          rw [this]; simpa using hq

theorem sine_generate_length (sinF : α → α) (w : SineWave α) :
    (SineWave.generate sinF w).samples.length = w.samples.length + SIZE := by
  rw [sine_generate_samples]; simp

theorem square_generate_length (sinF : α → α) (w : SquareWave α) :
    (SquareWave.generate sinF w).samples.length = w.samples.length + SIZE := by
  rw [square_generate_samples]; simp

theorem sine_fresh_length (sinF : α → α) (f A p fs : α) :
    (SineWave.generate sinF (SineWave.init f A p fs)).samples.length = 501 :=
  (sine_generate_length sinF (SineWave.init f A p fs)).trans rfl

theorem square_fresh_length (sinF : α → α) (f A p fs : α) :
    (SquareWave.generate sinF (SquareWave.init f A p fs)).samples.length = 501 :=
  (square_generate_length sinF (SquareWave.init f A p fs)).trans rfl

theorem sine_show_cut (toDouble : α → Binary64) (sinF : α → α) (f A p fs : α) (c : ℕ)
    (hc : c ≤ 501)
    (hb : ∀ k, k < c →
      Binary64.lt (Binary64.add (toDouble DURATION) (toDouble DIFF))
        (Binary64.clockAt (toDouble (1.0 / fs)) k) = false)
    (ht : c < 501 →
      Binary64.lt (Binary64.add (toDouble DURATION) (toDouble DIFF))
        (Binary64.clockAt (toDouble (1.0 / fs)) c) = true) :
    SineWave.show_samples toDouble (SineWave.generate sinF (SineWave.init f A p fs)) =
      some ((List.range c).map (fun k =>
        (SineWave.generate sinF (SineWave.init f A p fs)).samples.getD k 0)) := by
  have hl := sine_fresh_length sinF f A p fs
  have htm : (SineWave.generate sinF (SineWave.init f A p fs)).time_interval
      = some ((1.0 : α) / fs) := rfl
  rw [SineWave.show_samples, htm]
  simp only []
  have h := showLoop_eq toDouble (SineWave.generate sinF (SineWave.init f A p fs)).samples
    (toDouble (1.0 / fs)) c hb ht hc (by rw [hl]; exact hc) c 0 [] (Nat.sub_zero c)
    (Nat.zero_le c)
  simp only [Binary64.clockAt, zero_add, List.nil_append] at h
  exact h

theorem square_show_cut (toDouble : α → Binary64) (sinF : α → α) (f A p fs : α) (c : ℕ)
    (hc : c ≤ 501)
    (hb : ∀ k, k < c →
      Binary64.lt (Binary64.add (toDouble DURATION) (toDouble DIFF))
        (Binary64.clockAt (toDouble (1.0 / fs)) k) = false)
    (ht : c < 501 →
      Binary64.lt (Binary64.add (toDouble DURATION) (toDouble DIFF))
        (Binary64.clockAt (toDouble (1.0 / fs)) c) = true) :
    SquareWave.show_samples toDouble (SquareWave.generate sinF (SquareWave.init f A p fs)) =
      some ((List.range c).map (fun k =>
        (SquareWave.generate sinF (SquareWave.init f A p fs)).samples.getD k 0)) := by
  have hl := square_fresh_length sinF f A p fs
  have htm : (SquareWave.generate sinF (SquareWave.init f A p fs)).time_interval
      = some ((1.0 : α) / fs) := rfl
  rw [SquareWave.show_samples, htm]
  simp only []
  have h := showLoop_eq toDouble
    (SquareWave.generate sinF (SquareWave.init f A p fs)).samples
    (toDouble (1.0 / fs)) c hb ht hc (by rw [hl]; exact hc) c 0 [] (Nat.sub_zero c)
    (Nat.zero_le c)
  simp only [Binary64.clockAt, zero_add, List.nil_append] at h
  exact h

/-- Whatever the rounding, both `show_samples` return: they print the samples before
the first index `c ≤ 501` at which the double clock exceeds `DURATION + DIFF`. -/
theorem show_samples_initial (toDouble : α → Binary64) (sinF : α → α)
    (f A p fs f2 A2 p2 : α) :
    ∃ c, c ≤ 501 ∧
      SineWave.show_samples toDouble (SineWave.generate sinF (SineWave.init f A p fs)) =
        some ((List.range c).map (fun k =>
          (SineWave.generate sinF (SineWave.init f A p fs)).samples.getD k 0)) ∧
      SquareWave.show_samples toDouble
          (SquareWave.generate sinF (SquareWave.init f2 A2 p2 fs)) =
        some ((List.range c).map (fun k =>
          (SquareWave.generate sinF (SquareWave.init f2 A2 p2 fs)).samples.getD k 0)) ∧
      (∀ k, k < c →
        Binary64.lt (Binary64.add (toDouble DURATION) (toDouble DIFF))
          (Binary64.clockAt (toDouble (1.0 / fs)) k) = false) ∧
      (c < 501 →
        Binary64.lt (Binary64.add (toDouble DURATION) (toDouble DIFF))
          (Binary64.clockAt (toDouble (1.0 / fs)) c) = true) := by
  obtain ⟨c, hc, hb, ht⟩ := first_exceed
    (fun k => Binary64.lt (Binary64.add (toDouble DURATION) (toDouble DIFF))
      (Binary64.clockAt (toDouble (1.0 / fs)) k)) 501
  exact ⟨c, hc, sine_show_cut toDouble sinF f A p fs c hc hb ht,
    square_show_cut toDouble sinF f2 A2 p2 fs c hc hb ht, hb, ht⟩

/-- The double clock with step `0.005` stays at or below the double `1.0 + 0.01` for
the indices `0..201`. -/
theorem ref_clock_below :
    ∀ k, k < 202 →
      Binary64.lt (Binary64.add (Binary64.ofFrac false 1 1) (Binary64.ofFrac false 1 100))
        (Binary64.clockAt (Binary64.ofFrac false 1 200) k) = false := by
  decide!

/-- The double clock with step `0.005` exceeds the double `1.0 + 0.01` at index `202`. -/
theorem ref_clock_cut :
    Binary64.lt (Binary64.add (Binary64.ofFrac false 1 1) (Binary64.ofFrac false 1 100))
      (Binary64.clockAt (Binary64.ofFrac false 1 200) 202) = true := by
  decide!

theorem sine_show_ref (toDouble : α → Binary64)
    (hD : toDouble DURATION = Binary64.ofFrac false 1 1)
    (hF : toDouble DIFF = Binary64.ofFrac false 1 100)
    (h : toDouble (1.0 / 200) = Binary64.ofFrac false 1 200) (sinF : α → α) (f A p : α) :
    SineWave.show_samples toDouble (SineWave.generate sinF (SineWave.init f A p 200)) =
      some ((List.range 202).map (fun k =>
        (SineWave.generate sinF (SineWave.init f A p 200)).samples.getD k 0)) :=
  sine_show_cut toDouble sinF f A p 200 202 (by decide)
    (by rw [hD, hF, h]; exact ref_clock_below)
    (fun _ => by rw [hD, hF, h]; exact ref_clock_cut)

theorem square_show_ref (toDouble : α → Binary64)
    (hD : toDouble DURATION = Binary64.ofFrac false 1 1)
    (hF : toDouble DIFF = Binary64.ofFrac false 1 100)
    (h : toDouble (1.0 / 200) = Binary64.ofFrac false 1 200) (sinF : α → α) (f A p : α) :
    SquareWave.show_samples toDouble (SquareWave.generate sinF (SquareWave.init f A p 200)) =
      some ((List.range 202).map (fun k =>
        (SquareWave.generate sinF (SquareWave.init f A p 200)).samples.getD k 0)) :=
  square_show_cut toDouble sinF f A p 200 202 (by decide)
    (by rw [hD, hF, h]; exact ref_clock_below)
    (fun _ => by rw [hD, hF, h]; exact ref_clock_cut)

/-- The double nearest to a positive fraction in lowest terms. -/
theorem ofRat_div (q : ℚ) (n d : ℕ) (hd : 0 < d) (hc : Nat.Coprime n d)
    (hq : q = (n : ℚ) / (d : ℚ)) : Binary64.ofRat q = Binary64.ofFrac false n d := by
  have hq2 : q = ((n : ℤ) : ℚ) / ((d : ℤ) : ℚ) := by
    rw [hq, Int.cast_natCast, Int.cast_natCast]
  have hn : q.num = (n : ℤ) := by
    rw [hq2]; exact Rat.num_div_eq_of_coprime (by exact_mod_cast hd) (by simpa using hc)
  have hden : (q.den : ℤ) = (d : ℤ) := by
    rw [hq2]; exact Rat.den_div_eq_of_coprime (by exact_mod_cast hd) (by simpa using hc)
  have hden2 : q.den = d := by exact_mod_cast hden
  have hnn : (0 : ℚ) ≤ q := by rw [hq]; positivity
  have hneg : decide (q < 0) = false := decide_eq_false (not_lt.mpr hnn)
  rw [Binary64.ofRat, hn, hden2, hneg, Int.natAbs_ofNat]

/-- The double of the literal `1.0`. -/
theorem ofRat_DURATION : Binary64.ofRat (DURATION : ℚ) = Binary64.ofFrac false 1 1 :=
  ofRat_div _ 1 1 (by decide) (by decide) (by simp only [DURATION]; norm_num)

/-- The double of the literal `0.01`. -/
theorem ofRat_DIFF : Binary64.ofRat (DIFF : ℚ) = Binary64.ofFrac false 1 100 :=
  ofRat_div _ 1 100 (by decide) (by decide) (by simp only [DIFF]; norm_num)

/-- The nearest double to the exact quotient `1.0 / 200`. -/
theorem ofRat_ref_step : Binary64.ofRat ((1.0 : ℚ) / 200) = Binary64.ofFrac false 1 200 :=
  ofRat_div _ 1 200 (by decide) (by decide) (by norm_num)

theorem range_map_ne {β : Type} (g : ℕ → β) (m n : ℕ) (h : m ≠ n) :
    some ((List.range m).map g) ≠ some ((List.range n).map g) := by
  intro e
  have e2 := congrArg List.length (Option.some.inj e)
  rw [List.length_map, List.length_map, List.length_range, List.length_range] at e2
  exact h e2

theorem main_of (toDouble : α → Binary64) (sinF : α → α) (sd qd mixed : List α)
    (st : Stats α)
    (h1 : SineWave.show_samples toDouble
      (SineWave.generate sinF (SineWave.init 10 3 90 200)) = some sd)
    (h2 : SquareWave.show_samples toDouble
      (SquareWave.generate sinF (SquareWave.init 40 1 0 200)) = some qd)
    (h3 : mixLoop (SineWave.generate sinF (SineWave.init 10 3 90 200)).samples
      (SquareWave.generate sinF (SquareWave.init 40 1 0 200)).samples
      (min (SineWave.generate sinF (SineWave.init 10 3 90 200)).samples.length
        (SquareWave.generate sinF (SquareWave.init 40 1 0 200)).samples.length) 0 []
      = some mixed)
    (h4 : windowStats mixed
      (min (SineWave.generate sinF (SineWave.init 10 3 90 200)).samples.length
        (SquareWave.generate sinF (SquareWave.init 40 1 0 200)).samples.length)
      = some st) :
    main toDouble sinF = some { sine_dump := sd, square_dump := qd, mixed_signal := mixed,
                                stats := st } := by
  have key : ∀ o : Option (Stats α), o = some st →
      (match o with
        | none => none
        | some stats => some { sine_dump := sd, square_dump := qd, mixed_signal := mixed,
                               stats := stats : Output α }) =
      some { sine_dump := sd, square_dump := qd, mixed_signal := mixed, stats := st } := by
    intro o ho; subst ho; rfl
  simp only [main]
  rw [h1, h2, h3]
  exact key _ h4

/-- Mixing and window statistics for two sample vectors of `501` elements. -/
theorem pipeline_of (S Q : List α) (hS : S.length = 501) (hQ : Q.length = 501) :
    mixLoop S Q (min S.length Q.length) 0 [] =
        some ((List.range 501).map (fun k => S.getD k 0 * Q.getD k 0)) ∧
      windowStats ((List.range 501).map (fun k => S.getD k 0 * Q.getD k 0))
          (min S.length Q.length) =
        some { quarter_len := 125
               mean := some ((∑ i in Finset.Ico 0 125,
                 ((List.range 501).map (fun k => S.getD k 0 * Q.getD k 0)).getD i 0) / 125)
               integral := ∑ i in Finset.Ico 125 250,
                 ((List.range 501).map (fun k => S.getD k 0 * Q.getD k 0)).getD i 0 } := by
  rw [hS, hQ, min_self]
  constructor
  · rw [mixLoop_eq S Q 501 (by omega) (by omega) 501 0 [] (by simp)]
    simp only [List.nil_append, zero_add]
  · rw [windowStats_eq _ 501 (by rw [List.length_map, List.length_range])]
    have hq : 501 / 4 = 125 := by norm_num
    have hd : ∀ x : α, divInt x 125 = some (x / 125) := by
      intro x; rw [divInt, if_neg (by omega)]; norm_num
    simp only [hq, hd]

/-- What `main` returns, in terms of the two generated sample vectors and of what the
two `show_samples` calls print. -/
theorem main_eq (toDouble : α → Binary64) (sinF : α → α) (sd qd : List α)
    (h1 : SineWave.show_samples toDouble
      (SineWave.generate sinF (SineWave.init 10 3 90 200)) = some sd)
    (h2 : SquareWave.show_samples toDouble
      (SquareWave.generate sinF (SquareWave.init 40 1 0 200)) = some qd) :
    main toDouble sinF =
      some { sine_dump := sd
             square_dump := qd
             mixed_signal := (List.range 501).map (fun k =>
               (SineWave.generate sinF (SineWave.init 10 3 90 200)).samples.getD k 0 *
               (SquareWave.generate sinF (SquareWave.init 40 1 0 200)).samples.getD k 0)
             stats :=
               { quarter_len := 125
                 mean := some ((∑ i in Finset.Ico 0 125,
                   ((List.range 501).map (fun k =>
                     (SineWave.generate sinF (SineWave.init 10 3 90 200)).samples.getD k 0 *
                     (SquareWave.generate sinF (SquareWave.init 40 1 0 200)).samples.getD k 0)
                   ).getD i 0) / 125)
                 integral := ∑ i in Finset.Ico 125 250,
                   ((List.range 501).map (fun k =>
                     (SineWave.generate sinF (SineWave.init 10 3 90 200)).samples.getD k 0 *
                     (SquareWave.generate sinF (SquareWave.init 40 1 0 200)).samples.getD k 0)
                   ).getD i 0 } } :=
  main_of toDouble sinF _ _ _ _ h1 h2
    (pipeline_of _ _ (sine_fresh_length sinF 10 3 90 200)
      (square_fresh_length sinF 40 1 0 200)).1
    (pipeline_of _ _ (sine_fresh_length sinF 10 3 90 200)
      (square_fresh_length sinF 40 1 0 200)).2

/-- Whatever the rounding `toDouble`, `main` returns: both dumps are prefixes of at most
`501` samples. -/
theorem main_runs (toDouble : α → Binary64) (sinF : α → α) :
    ∃ sd qd, sd.length ≤ 501 ∧ qd.length ≤ 501 ∧
      main toDouble sinF =
        some { sine_dump := sd
               square_dump := qd
               mixed_signal := (List.range 501).map (fun k =>
                 (SineWave.generate sinF (SineWave.init 10 3 90 200)).samples.getD k 0 *
                 (SquareWave.generate sinF (SquareWave.init 40 1 0 200)).samples.getD k 0)
               stats :=
                 { quarter_len := 125
                   mean := some ((∑ i in Finset.Ico 0 125,
                     ((List.range 501).map (fun k =>
                       (SineWave.generate sinF (SineWave.init 10 3 90 200)).samples.getD k 0 *
                       (SquareWave.generate sinF (SquareWave.init 40 1 0 200)
                         ).samples.getD k 0)
                     ).getD i 0) / 125)
                   integral := ∑ i in Finset.Ico 125 250,
                     ((List.range 501).map (fun k =>
                       (SineWave.generate sinF (SineWave.init 10 3 90 200)).samples.getD k 0 *
                       (SquareWave.generate sinF (SquareWave.init 40 1 0 200)
                         ).samples.getD k 0)
                     ).getD i 0 } } := by
  obtain ⟨c, hc, hs1, hs2, _, _⟩ := show_samples_initial toDouble sinF 10 3 90 200 40 1 0
  refine ⟨_, _, ?_, ?_, main_eq toDouble sinF _ _ hs1 hs2⟩
  · rw [List.length_map, List.length_range]; exact hc
  · rw [List.length_map, List.length_range]; exact hc

/-! ## The constant `PI` against the circle constant -/

theorem PI_pos_real : (0 : ℝ) < PI := by
  simp only [PI]; norm_num

theorem PI_lt_pi : (PI : ℝ) < Real.pi := by
  have h := Real.pi_gt_d20
  simp only [PI]
  norm_num at h ⊢
  linarith

theorem pi_sub_PI_lt : Real.pi - (PI : ℝ) < 1 / 10 ^ 7 := by
  have h := Real.pi_lt_d20
  simp only [PI]
  norm_num at h ⊢
  linarith

theorem sin_PI_pos : 0 < Real.sin (PI : ℝ) :=
  Real.sin_pos_of_pos_of_lt_pi PI_pos_real PI_lt_pi

theorem sin_half_PI_lt_one : Real.sin ((PI : ℝ) / 2) < 1 := by
  have h1 := PI_pos_real
  have h2 := PI_lt_pi
  have h3 := Real.pi_pos
  rw [← Real.sin_pi_div_two]
  exact Real.sin_lt_sin_of_lt_of_le_pi_div_two (by linarith) le_rfl (by linarith)

theorem sin_half_PI_pos : 0 < Real.sin ((PI : ℝ) / 2) := by
  have h1 := PI_pos_real
  have h2 := PI_lt_pi
  exact Real.sin_pos_of_pos_of_lt_pi (by linarith) (by linarith)

theorem one_sub_sin_half_PI_le : 1 - Real.sin ((PI : ℝ) / 2) ≤ 1 / 10 ^ 14 := by
  have h2 := PI_lt_pi
  have h3 := pi_sub_PI_lt
  have hcos := Real.one_sub_sq_div_two_le_cos (x := Real.pi / 2 - (PI : ℝ) / 2)
  rw [Real.cos_pi_div_two_sub] at hcos
  have hd0 : 0 ≤ Real.pi / 2 - (PI : ℝ) / 2 := by linarith
  have hd1 : Real.pi / 2 - (PI : ℝ) / 2 ≤ 1 / 10 ^ 7 := by linarith
  have hsq : (Real.pi / 2 - (PI : ℝ) / 2) ^ 2 ≤ (1 / 10 ^ 7) ^ 2 :=
    pow_le_pow_left₀ hd0 hd1 2
  norm_num at hsq ⊢
  linarith

/-! ## Sample values -/

/-- C1 (as stated, refuted): for the reference sine `Sine(f=10, A=3, phase=90, fs=200)`
the samples that `SineWave::generate` stores at index 0 and at index 5 are not the
values `3 * sin(2π·10·(i/200) + π/2)` formed with the circle constant `π`. -/
theorem C1_sine_sample_not_with_pi :
    (SineWave.generate Real.sin (SineWave.init (10 : ℝ) 3 90 200)).samples[0]? ≠
        some (3 * Real.sin (2 * Real.pi * 10 * ((0 : ℕ) / 200) + Real.pi / 2)) ∧
      (SineWave.generate Real.sin (SineWave.init (10 : ℝ) 3 90 200)).samples[5]? ≠
        some (3 * Real.sin (2 * Real.pi * 10 * ((5 : ℕ) / 200) + Real.pi / 2)) := by
  constructor
  · rw [sine_generate_getElem? Real.sin _ rfl 0 (by decide)]
    have h := sin_half_PI_lt_one
    have e1 : sineValue Real.sin (SineWave.init (10 : ℝ) 3 90 200) 0
        = 3 * Real.sin ((PI : ℝ) / 2) := by
      simp [sineValue, SineWave.init, timeAt, theta, zero_lit, ninety_lit, two_lit]
    have e2 : (3 : ℝ) * Real.sin (2 * Real.pi * 10 * ((0 : ℕ) / 200) + Real.pi / 2) = 3 := by
      simp
    rw [e1, e2]
    intro hc
    have := Option.some.inj hc
    linarith
  · rw [sine_generate_getElem? Real.sin _ rfl 5 (by decide)]
    have h := sin_PI_pos
    have e1 : sineValue Real.sin (SineWave.init (10 : ℝ) 3 90 200) 5
        = 3 * Real.sin (PI : ℝ) := by
      simp only [sineValue, SineWave.init, timeAt_eq, theta, ninety_lit, if_true, one_lit,
        two_lit]
      congr 2
      push_cast
      ring
    have e2 : (3 : ℝ) * Real.sin (2 * Real.pi * 10 * ((5 : ℕ) / 200) + Real.pi / 2) = 0 := by
      have : 2 * Real.pi * 10 * (((5 : ℕ) : ℝ) / 200) + Real.pi / 2 = Real.pi := by
        push_cast; ring
      rw [this, Real.sin_pi, mul_zero]
    rw [e1, e2]
    intro hc
    have := Option.some.inj hc
    linarith

/-- C1 (amended): for every sine spec with `fs > 0` and every index `i < 501`, the
sample at index `i` produced by `SineWave::generate` on a freshly constructed wave is
`A * sin(2*PI*f*(i/fs) + theta)`, where `PI` is the program's constant `3.1415926`
and `theta = PI/2` if `p = 90` and `theta = 0` otherwise. -/
theorem C1_sine_sample (f A p fs : ℝ) (_hfs : 0 < fs) (i : ℕ) (hi : i < 501) :
    (SineWave.generate Real.sin (SineWave.init f A p fs)).samples[i]? =
      some (A * Real.sin (2 * (3.1415926 : ℝ) * f * ((i : ℝ) / fs)
        + (if p = 90 then (3.1415926 : ℝ) / 2 else 0))) := by
  rw [sine_generate_getElem? Real.sin _ rfl i hi]
  simp only [sineValue, SineWave.init, timeAt_eq, theta, ninety_lit, one_lit, two_lit,
    zero_lit, PI]
  congr 4
  rw [mul_one_div]

/-- Witness for `C1_sine_sample`: the reference sine at index 5. -/
theorem C1_sine_sample_witness :
    (0 : ℝ) < 200 ∧ 5 < 501 ∧
      (SineWave.generate Real.sin (SineWave.init (10 : ℝ) 3 90 200)).samples[5]? =
        some (3 * Real.sin (2 * (3.1415926 : ℝ) * 10 * (((5 : ℕ) : ℝ) / 200)
          + (if (90 : ℝ) = 90 then (3.1415926 : ℝ) / 2 else 0))) :=
  ⟨by norm_num, by decide, C1_sine_sample 10 3 90 200 (by norm_num) 5 (by decide)⟩

theorem sign_cases (A x : α) :
    (SquareWave.sign A (A * x) = 0 ↔ A * x = 0) ∧
      (|SquareWave.sign A (A * x)| = |A| ∨ SquareWave.sign A (A * x) = 0) ∧
      (0 ≤ A → (0 < A * x → 0 < SquareWave.sign A (A * x)) ∧
        (A * x < 0 → SquareWave.sign A (A * x) < 0) ∧
        (|SquareWave.sign A (A * x)| = A ∨ |SquareWave.sign A (A * x)| = 0)) ∧
      (A < 0 → (0 < A * x → SquareWave.sign A (A * x) < 0) ∧
        (A * x < 0 → 0 < SquareWave.sign A (A * x))) := by
  rcases lt_trichotomy (A * x) 0 with hv | hv | hv
  · have hA : A ≠ 0 := by rintro rfl; simp at hv
    have hs : SquareWave.sign A (A * x) = -A := by
      rw [SquareWave.sign, if_neg (not_lt.mpr hv.le), if_pos hv]
    rw [hs]
    refine ⟨?_, ?_, ?_, ?_⟩
    · constructor
      · intro h; exact absurd (neg_eq_zero.mp h) hA
      · intro h; exact absurd h hv.ne
    · left; exact abs_neg A
    · intro h0
      have hpos : 0 < A := lt_of_le_of_ne h0 (Ne.symm hA)
      refine ⟨fun h => absurd h (not_lt.mpr hv.le), fun _ => by linarith, ?_⟩
      left; rw [abs_neg, abs_of_pos hpos]
    · intro h0
      exact ⟨fun h => absurd h (not_lt.mpr hv.le), fun _ => by linarith⟩
  · have hs : SquareWave.sign A (A * x) = 0 := by
      rw [SquareWave.sign, hv, if_neg (lt_irrefl _), if_neg (lt_irrefl _), zero_lit]
    rw [hs, hv]
    refine ⟨by simp, Or.inr rfl, ?_, ?_⟩
    · intro _
      exact ⟨fun h => absurd h (lt_irrefl _), fun h => absurd h (lt_irrefl _), Or.inr abs_zero⟩
    · intro _
      exact ⟨fun h => absurd h (lt_irrefl _), fun h => absurd h (lt_irrefl _)⟩
  · have hA : A ≠ 0 := by rintro rfl; simp at hv
    have hs : SquareWave.sign A (A * x) = A := by
      rw [SquareWave.sign, if_pos hv]
    rw [hs]
    refine ⟨?_, ?_, ?_, ?_⟩
    · constructor
      · intro h; exact absurd h hA
      · intro h; exact absurd h hv.ne.symm
    · left; rfl
    · intro h0
      have hpos : 0 < A := lt_of_le_of_ne h0 (Ne.symm hA)
      exact ⟨fun _ => hpos, fun h => absurd h (not_lt.mpr hv.le), Or.inl (abs_of_pos hpos)⟩
    · intro h0
      exact ⟨fun _ => h0, fun h => absurd h (not_lt.mpr hv.le)⟩

/-- C2 (as stated, refuted): for the square spec `Square(f=40, A=-1, phase=90, fs=200)`
the underlying value `v = A * sin(2*PI*f*t_0 + theta)` of index 0 is negative, yet the
sample `SquareWave::generate` emits at index 0 is `+1`: positive, and of magnitude
`1`, which is neither `A = -1` nor `0`. -/
theorem C2_negative_amplitude_flips_sign :
    (-1 : ℝ) * Real.sin (2 * PI * 40 * timeAt (1 / 200) 0 + PI / 2) < 0 ∧
      (SquareWave.generate Real.sin (SquareWave.init (40 : ℝ) (-1) 90 200)).samples[0]? =
        some 1 ∧
      |(1 : ℝ)| ≠ -1 ∧ |(1 : ℝ)| ≠ 0 := by
  have h := sin_half_PI_pos
  have e : (2 : ℝ) * PI * 40 * timeAt (1 / 200) 0 + PI / 2 = PI / 2 := by
    simp [timeAt, zero_lit]
  refine ⟨?_, ?_, by norm_num, by norm_num⟩
  · rw [e]; linarith
  · rw [square_generate_getElem? Real.sin _ rfl 0 (by decide)]
    have e1 : squareUnderlying Real.sin (SquareWave.init (40 : ℝ) (-1) 90 200) 0
        = -1 * Real.sin ((PI : ℝ) / 2) := by
      simp [squareUnderlying, SquareWave.init, timeAt, theta, zero_lit, ninety_lit, two_lit]
    have e2 : (SquareWave.init (40 : ℝ) (-1) 90 200).amplitude = -1 := rfl
    rw [e1, e2, SquareWave.sign, if_neg (by linarith), if_pos (by linarith)]
    norm_num

theorem squareUnderlying_init (sinF : α → α) (f A p fs : α) (i : ℕ) :
    squareUnderlying sinF (SquareWave.init f A p fs) i =
      A * sinF (2 * PI * f * timeAt (1 / fs) i + (if p = 90 then PI / 2 else 0)) := by
  simp only [squareUnderlying, SquareWave.init, theta, ninety_lit, one_lit, two_lit, zero_lit]

theorem sineValue_init (sinF : α → α) (f A p fs : α) (i : ℕ) :
    sineValue sinF (SineWave.init f A p fs) i =
      A * sinF (2 * PI * f * timeAt (1 / fs) i + (if p = 90 then PI / 2 else 0)) := by
  simp only [sineValue, SineWave.init, theta, ninety_lit, one_lit, two_lit, zero_lit]

/-- C2 (amended): for every square spec, every index `i < 501` and the underlying value
`v = A * sin(2*PI*f*t_i + theta)` of that index, the sample `SquareWave::generate` emits
is `A` if `v > 0`, `-A` if `v < 0` and `0` otherwise; it is `0` exactly when `v = 0`
and has magnitude `|A|` or `0`. For `A ≥ 0` it has the same sign as `v` and magnitude
exactly `A` or `0`; for `A < 0` its sign is opposite to that of `v`. -/
theorem C2_square_sign (sinF : α → α) (f A p fs : α) (i : ℕ) (hi : i < 501) (v : α)
    (hv : v = A * sinF (2 * PI * f * timeAt (1 / fs) i + (if p = 90 then PI / 2 else 0))) :
    ∃ s, (SquareWave.generate sinF (SquareWave.init f A p fs)).samples[i]? = some s ∧
      (s = if v > 0 then A else if v < 0 then -A else 0) ∧
      (s = 0 ↔ v = 0) ∧
      (|s| = |A| ∨ s = 0) ∧
      (0 ≤ A → (0 < v → 0 < s) ∧ (v < 0 → s < 0) ∧ (|s| = A ∨ |s| = 0)) ∧
      (A < 0 → (0 < v → s < 0) ∧ (v < 0 → 0 < s)) := by
  refine ⟨SquareWave.sign A v, ?_, ?_, ?_⟩
  · rw [square_generate_getElem? sinF _ rfl i hi, squareUnderlying_init, ← hv]
    rfl
  · simp only [SquareWave.sign, zero_lit]
  · rw [hv]
    exact sign_cases A _

/-- Witness for `C2_square_sign`: the reference square at index 1. -/
theorem C2_square_sign_witness :
    ∃ s, (SquareWave.generate Real.sin (SquareWave.init (40 : ℝ) 1 0 200)).samples[1]?
        = some s ∧
      (s = 0 ↔ (1 : ℝ) * Real.sin (2 * PI * 40 * timeAt (1 / 200) 1
        + (if (0 : ℝ) = 90 then PI / 2 else 0)) = 0) := by
  obtain ⟨s, h1, _, h3, _⟩ := C2_square_sign Real.sin (40 : ℝ) 1 0 200 1 (by decide) _ rfl
  exact ⟨s, h1, h3⟩

/-- C3: one call of `generate` on a freshly constructed `SineWave` or `SquareWave`
leaves `samples` with exactly `501` elements (the same number for both variants), and
element `i` is the value computed in loop iteration `i`, at the time `t` that
iteration holds: samples are in index order, which is time order. -/
theorem C3_generate_length_and_order (sinF : α → α) (f A p fs f2 A2 p2 fs2 : α) :
    (SineWave.generate sinF (SineWave.init f A p fs)).samples.length = 501 ∧
      (SquareWave.generate sinF (SquareWave.init f2 A2 p2 fs2)).samples.length = 501 ∧
      (SineWave.generate sinF (SineWave.init f A p fs)).samples.length =
        (SquareWave.generate sinF (SquareWave.init f2 A2 p2 fs2)).samples.length ∧
      (∀ i, i < 501 →
        (SineWave.generate sinF (SineWave.init f A p fs)).samples[i]? =
          some (A * sinF (2 * PI * f * timeAt (1 / fs) i
            + (if p = 90 then PI / 2 else 0)))) ∧
      (∀ i, i < 501 →
        (SquareWave.generate sinF (SquareWave.init f2 A2 p2 fs2)).samples[i]? =
          some (SquareWave.sign A2 (A2 * sinF (2 * PI * f2 * timeAt (1 / fs2) i
            + (if p2 = 90 then PI / 2 else 0))))) := by
  refine ⟨sine_fresh_length sinF f A p fs, square_fresh_length sinF f2 A2 p2 fs2,
    (sine_fresh_length sinF f A p fs).trans (square_fresh_length sinF f2 A2 p2 fs2).symm,
    ?_, ?_⟩
  · intro i hi
    rw [sine_generate_getElem? sinF _ rfl i hi, sineValue_init]
  · intro i hi
    rw [square_generate_getElem? sinF _ rfl i hi, squareUnderlying_init]
    rfl

/-- Witness for `C3_generate_length_and_order`: the last sample, index 500, of the
reference sine. -/
theorem C3_generate_length_and_order_witness :
    500 < 501 ∧
      (SineWave.generate Real.sin (SineWave.init (10 : ℝ) 3 90 200)).samples[500]? =
        some (3 * Real.sin (2 * PI * 10 * timeAt (1 / 200) 500
          + (if (90 : ℝ) = 90 then PI / 2 else 0))) :=
  ⟨by decide,
    (C3_generate_length_and_order Real.sin (10 : ℝ) 3 90 200 40 1 0 200).2.2.2.1 500
      (by decide)⟩

/-! ## Mixing -/

/-- C4: for all sample sequences `a` and `b` the mixing loop of `main` returns a mixed
signal whose element `i`, for every `i` below both lengths (that is, below
`min(len(a), len(b))`), is the product `a[i] * b[i]` of the equal-indexed inputs. -/
theorem C4_mixed_elements (a b : List α) :
    ∃ out, combine a b = some out ∧
      ∀ (i : ℕ) (ha : i < a.length) (hb : i < b.length), out[i]? = some (a[i] * b[i]) := by
  refine ⟨_, combine_eq a b, ?_⟩
  intro i ha hb
  have hi : i < min a.length b.length := lt_min ha hb
  rw [List.getElem?_map, List.getElem?_range hi, Option.map_some']
  simp only [List.getD_eq_getElem?_getD, List.getElem?_eq_getElem ha,
    List.getElem?_eq_getElem hb, Option.getD_some]

/-- Witness for `C4_mixed_elements`: index 1 of `[1, 2, 3]` mixed with `[4, 5]`. -/
theorem C4_mixed_elements_witness :
    ∃ out, combine [1, 2, 3] ([4, 5] : List ℚ) = some out ∧ out[1]? = some (2 * 5) := by
  obtain ⟨out, h, hel⟩ := C4_mixed_elements [1, 2, 3] ([4, 5] : List ℚ)
  exact ⟨out, h, hel 1 (by decide) (by decide)⟩

/-- C5: for all sample sequences `a` and `b`, of equal or different lengths, the mixing
step returns a mixed signal (never an error) of length exactly
`min(len(a), len(b))`; mixing any sequence with an empty one gives the empty
sequence. -/
theorem C5_mixed_length (a b : List α) :
    (∃ out, combine a b = some out ∧ out.length = min a.length b.length) ∧
      combine a [] = some [] ∧ combine [] a = some [] := by
  refine ⟨⟨_, combine_eq a b, ?_⟩, ?_, ?_⟩
  · rw [List.length_map, List.length_range]
  · rw [combine_eq]; simp
  · rw [combine_eq]; simp

/-- C6: the mixing step is commutative: `combine a b` and `combine b a` both return a
signal, the two have the same length, and they agree at every index. -/
theorem C6_combine_comm (a b : List α) :
    ∃ o1 o2, combine a b = some o1 ∧ combine b a = some o2 ∧
      o1.length = o2.length ∧ (∀ i : ℕ, o1[i]? = o2[i]?) ∧ o1 = o2 := by
  have h : (List.range (min a.length b.length)).map (fun k => a.getD k 0 * b.getD k 0) =
      (List.range (min b.length a.length)).map (fun k => b.getD k 0 * a.getD k 0) := by
    rw [min_comm]
    apply List.map_congr_left
    intro k _
    exact mul_comm _ _
  refine ⟨_, _, combine_eq a b, combine_eq b a, ?_, ?_, h⟩
  · rw [h]
  · intro i; rw [h]

/-! ## Phase handling -/

/-- C7: whenever `phase_offset` is any value other than exactly `90`, `generate`
produces the same samples as for the otherwise identical wave with `phase_offset = 0`,
for the sine and for the square variant: the values pushed are formed with
`theta = 0`. Only `phase_offset = 90` gives `theta = PI/2`. -/
theorem C7_phase_other_than_90 (sinF : α → α) (w : SineWave α) (q : SquareWave α) :
    (w.phase_offset ≠ 90 →
      (SineWave.generate sinF w).samples =
          (SineWave.generate sinF { w with phase_offset := 0 }).samples ∧
        (SineWave.generate sinF w).samples = w.samples ++ (List.range 501).map (fun i =>
          w.amplitude * sinF (2 * PI * w.frequency * timeAt (1 / w.sampling_freq) i + 0))) ∧
      (q.phase_offset ≠ 90 →
        (SquareWave.generate sinF q).samples =
            (SquareWave.generate sinF { q with phase_offset := 0 }).samples ∧
          (SquareWave.generate sinF q).samples = q.samples ++ (List.range 501).map (fun i =>
            SquareWave.sign q.amplitude (q.amplitude *
              sinF (2 * PI * q.frequency * timeAt (1 / q.sampling_freq) i + 0)))) ∧
      (w.phase_offset = 90 →
        (SineWave.generate sinF w).samples = w.samples ++ (List.range 501).map (fun i =>
          w.amplitude *
            sinF (2 * PI * w.frequency * timeAt (1 / w.sampling_freq) i + PI / 2))) ∧
      (q.phase_offset = 90 →
        (SquareWave.generate sinF q).samples = q.samples ++ (List.range 501).map (fun i =>
          SquareWave.sign q.amplitude (q.amplitude *
            sinF (2 * PI * q.frequency * timeAt (1 / q.sampling_freq) i + PI / 2)))) ∧
      (PI : α) / 2 ≠ 0 := by
  have h90 : ((0 : α) = 90) = False := by norm_num
  refine ⟨?_, ?_, ?_, ?_, ?_⟩
  · intro h
    constructor
    · rw [sine_generate_samples, sine_generate_samples]
      simp only [sineValue, theta, ninety_lit, if_neg h, h90, if_false]
    · rw [sine_generate_samples]
      simp only [sineValue, theta, ninety_lit, if_neg h, SIZE, one_lit, two_lit, zero_lit]
  · intro h
    constructor
    · rw [square_generate_samples, square_generate_samples]
      simp only [squareUnderlying, theta, ninety_lit, if_neg h, h90, if_false]
    · rw [square_generate_samples]
      simp only [squareUnderlying, theta, ninety_lit, if_neg h, SIZE, one_lit, two_lit,
        zero_lit]
  · intro h
    rw [sine_generate_samples]
    simp only [sineValue, theta, ninety_lit, if_pos h, SIZE, one_lit, two_lit]
  · intro h
    rw [square_generate_samples]
    simp only [squareUnderlying, theta, ninety_lit, if_pos h, SIZE, one_lit, two_lit]
  · simp only [PI]; norm_num

/-- Witness for `C7_phase_other_than_90`: a sine and a square with phase 45. -/
theorem C7_phase_other_than_90_witness :
    (45 : ℝ) ≠ 90 ∧
      (SineWave.generate Real.sin (SineWave.init (10 : ℝ) 3 45 200)).samples =
        (SineWave.generate Real.sin
          { SineWave.init (10 : ℝ) 3 45 200 with phase_offset := 0 }).samples ∧
      (SquareWave.generate Real.sin (SquareWave.init (40 : ℝ) 1 45 200)).samples =
        (SquareWave.generate Real.sin
          { SquareWave.init (40 : ℝ) 1 45 200 with phase_offset := 0 }).samples :=
  ⟨by norm_num,
    ((C7_phase_other_than_90 Real.sin (SineWave.init (10 : ℝ) 3 45 200)
      (SquareWave.init (40 : ℝ) 1 45 200)).1 (by simp [SineWave.init])).1,
    ((C7_phase_other_than_90 Real.sin (SineWave.init (10 : ℝ) 3 45 200)
      (SquareWave.init (40 : ℝ) 1 45 200)).2.1 (by simp [SquareWave.init])).1⟩

/-! ## Reference scenarios -/

/-- C8: for the reference sine `Sine(f=10, A=3, phase=90, fs=200)` the sample that
`generate` stores at index 0 is `3 * sin(PI/2)` with the program's own `PI`, and it
differs from `3.0` by at most `1e-9`. -/
theorem C8_reference_sine_index_zero :
    ∃ s : ℝ,
      (SineWave.generate Real.sin (SineWave.init (10 : ℝ) 3 90 200)).samples[0]? = some s ∧
      s = 3 * Real.sin ((3.1415926 : ℝ) / 2) ∧
      |s - 3.0| ≤ 1 / 10 ^ 9 := by
  have e1 : sineValue Real.sin (SineWave.init (10 : ℝ) 3 90 200) 0
      = 3 * Real.sin ((PI : ℝ) / 2) := by
    simp [sineValue, SineWave.init, timeAt, theta, zero_lit, ninety_lit, two_lit]
  refine ⟨3 * Real.sin ((PI : ℝ) / 2), ?_, ?_, ?_⟩
  · rw [sine_generate_getElem? Real.sin _ rfl 0 (by decide), e1]
  · simp only [PI]
  · have h1 := one_sub_sin_half_PI_le
    have h2 := sin_half_PI_lt_one
    rw [abs_le]
    norm_num at h1 ⊢
    constructor <;> linarith

/-- C9: for the reference square `Square(f=40, A=1, phase=0, fs=200)` the underlying
sine value of index 0 is `0`, and the sample that `generate` stores at index 0 is
exactly `0.0`, which is neither `+1` nor `-1`. -/
theorem C9_reference_square_index_zero :
    squareUnderlying Real.sin (SquareWave.init (40 : ℝ) 1 0 200) 0 = 0 ∧
      (1 : ℝ) * Real.sin (2 * PI * 40 * timeAt (1 / 200) 0 + 0) = 0 ∧
      (SquareWave.generate Real.sin (SquareWave.init (40 : ℝ) 1 0 200)).samples[0]? =
        some (0.0 : ℝ) ∧
      (0.0 : ℝ) ≠ 1 ∧ (0.0 : ℝ) ≠ -1 := by
  have e1 : squareUnderlying Real.sin (SquareWave.init (40 : ℝ) 1 0 200) 0 = 0 := by
    simp [squareUnderlying, SquareWave.init, timeAt, theta, zero_lit, ninety_lit, two_lit]
  refine ⟨e1, ?_, ?_, by norm_num, by norm_num⟩
  · simp [timeAt, zero_lit]
  · rw [square_generate_getElem? Real.sin _ rfl 0 (by decide), e1]
    simp [SquareWave.sign, zero_lit]

/-! ## Window statistics -/

theorem windowStats_congr (m1 m2 : List α) (L : ℕ) (h1 : L ≤ m1.length)
    (h2 : L ≤ m2.length) (h : ∀ i, i < 2 * (L / 4) → m1[i]? = m2[i]?) :
    windowStats m1 L = windowStats m2 L := by
  rw [windowStats_eq m1 L h1, windowStats_eq m2 L h2]
  have e1 : ∑ k in Finset.Ico 0 (L / 4), m1.getD k 0
      = ∑ k in Finset.Ico 0 (L / 4), m2.getD k 0 := by
    apply Finset.sum_congr rfl
    intro k hk
    rw [Finset.mem_Ico] at hk
    rw [List.getD_eq_getElem?_getD, List.getD_eq_getElem?_getD, h k (by omega)]
  have e2 : ∑ k in Finset.Ico (L / 4) (2 * (L / 4)), m1.getD k 0
      = ∑ k in Finset.Ico (L / 4) (2 * (L / 4)), m2.getD k 0 := by
    apply Finset.sum_congr rfl
    intro k hk
    rw [Finset.mem_Ico] at hk
    rw [List.getD_eq_getElem?_getD, List.getD_eq_getElem?_getD, h k (by omega)]
  rw [e1, e2]

/-- C10: whatever the rounding `toDouble` of the dump clock, `main` runs to completion
with a mixed signal of `501` elements,
`quarter_len = 501 / 4 = 125`, the reported mean is the sum of the mixed samples at
indices `[0, 125)` divided by `125`, and the reported sum is the sum of the mixed
samples at indices `[125, 250)`. In general, for a mixed signal of at least `L`
elements, the statistics use `q = L / 4` (floor), the windows `[0, q)` and `[q, 2q)`,
`4 * q ≤ L`, and they do not depend on any sample at an index `≥ 2q`, in particular
not on the remainder samples at indices `≥ 4q` (index `500` in the reference run). -/
theorem C10_quarter_windows (toDouble : α → Binary64) (sinF : α → α)
    (mixed other : List α) (L : ℕ)
    (hL : L ≤ mixed.length) (hother : L ≤ other.length)
    (hagree : ∀ i, i < 2 * (L / 4) → other[i]? = mixed[i]?) :
    (∃ sine_dump square_dump mixed_signal mean integral,
      main toDouble sinF =
        some { sine_dump := sine_dump, square_dump := square_dump,
               mixed_signal := mixed_signal,
               stats := { quarter_len := 125, mean := some mean,
                          integral := integral } } ∧
      mixed_signal.length = 501 ∧
      125 = 501 / 4 ∧
      mean = (∑ i in Finset.Ico 0 125, mixed_signal.getD i 0) / 125 ∧
      integral = ∑ i in Finset.Ico 125 250, mixed_signal.getD i 0) ∧
    windowStats mixed L =
      some { quarter_len := L / 4
             mean := divInt (∑ i in Finset.Ico 0 (L / 4), mixed.getD i 0) (L / 4)
             integral := ∑ i in Finset.Ico (L / 4) (2 * (L / 4)), mixed.getD i 0 } ∧
    4 * (L / 4) ≤ L ∧ L - 4 * (L / 4) = L % 4 ∧
    windowStats other L = windowStats mixed L := by
  obtain ⟨sd, qd, _, _, hm⟩ := main_runs toDouble sinF
  refine ⟨⟨sd, qd, _, _, _, hm, ?_, by norm_num, rfl, rfl⟩,
    windowStats_eq mixed L hL, by omega, by omega,
    windowStats_congr other mixed L hother hL hagree⟩
  rw [List.length_map, List.length_range]

/-- Witness for `C10_quarter_windows`: a five-element signal, and the same signal with
its last (remainder) sample changed: `q = 1`, mean `1 / 1`, sum `2`. -/
theorem C10_quarter_windows_witness :
    windowStats ([1, 2, 3, 4, 5] : List ℚ) 5 =
        some { quarter_len := 1, mean := some 1, integral := 2 } ∧
      windowStats ([1, 2, 3, 4, 9] : List ℚ) 5 = windowStats ([1, 2, 3, 4, 5] : List ℚ) 5 := by
  have h := C10_quarter_windows Binary64.ofRat (fun x : ℚ => x) [1, 2, 3, 4, 5]
    [1, 2, 3, 4, 9] 5
    (by decide) (by decide)
    (by
      intro i hi
      have hi2 : i < 2 := by omega
      interval_cases i <;> rfl)
  refine ⟨?_, h.2.2.2.2⟩
  rw [h.2.1]
  simp [divInt, Finset.sum_Ico_eq_sum_range]

/-- C11 (as stated, refuted): with three mixed samples `quarter_len = 3 / 4 = 0`, and
the statistics of `main` are not rejected: `accumulate` over the empty window returns
`0.0`, the mean is the quotient `0.0 / 0` (which has no real value) and the code goes
on to return the second-quarter sum `0`. -/
theorem C11_zero_window_not_rejected :
    windowStats ([1, 2, 3] : List ℚ) 3 =
        some { quarter_len := 0, mean := divInt 0 0, integral := 0 } ∧
      windowStats ([1, 2, 3] : List ℚ) 3 ≠ none ∧
      accumulate ([1, 2, 3] : List ℚ) 0 (3 / 4) 0.0 = some 0 ∧
      divInt (0 : ℚ) (3 / 4) = none := by
  have h := windowStats_eq ([1, 2, 3] : List ℚ) 3 (by decide)
  have hq : 3 / 4 = 0 := by norm_num
  rw [hq] at h
  simp only [Finset.Ico_self, Finset.sum_empty, Nat.mul_zero] at h
  refine ⟨h, ?_, ?_, ?_⟩
  · rw [h]; exact Option.some_ne_none _
  · rw [hq, accumulate, if_pos rfl, zero_lit]
  · rw [hq, divInt, if_pos rfl]

/-- C11 (amended): whenever the mixed signal has fewer than `4` elements,
`quarter_len = 0` and the code makes no range check: the statistics stage returns
normally, its mean is the quotient of the empty sum `0.0` by `0`, which has no real
value, and its second-quarter sum is `0`. -/
theorem C11_zero_window_divides_by_zero (mixed_signal : List α) (max_len : ℕ)
    (h : max_len < 4) :
    max_len / 4 = 0 ∧
      windowStats mixed_signal max_len =
        some { quarter_len := 0, mean := divInt 0 0, integral := 0 } ∧
      divInt (0 : α) 0 = none := by
  have hq : max_len / 4 = 0 := by omega
  refine ⟨hq, ?_, ?_⟩
  · simp only [windowStats, hq, Nat.mul_zero]
    rw [accumulate, if_pos rfl]
    simp only [zero_lit]
  · rw [divInt, if_pos rfl]

/-- Witness for `C11_zero_window_divides_by_zero`: a mixed signal of two samples. -/
theorem C11_zero_window_divides_by_zero_witness :
    2 < 4 ∧
      windowStats ([5, 7] : List ℚ) 2 =
        some { quarter_len := 0, mean := divInt 0 0, integral := 0 } :=
  ⟨by decide, (C11_zero_window_divides_by_zero ([5, 7] : List ℚ) 2 (by decide)).2.1⟩

theorem sum_getD_replicate (a b m : ℕ) (hb : b ≤ m) (v : α) :
    ∑ k in Finset.Ico a b, (List.replicate m v).getD k 0 = ((b - a : ℕ) : α) * v := by
  have h : ∀ k ∈ Finset.Ico a b, (List.replicate m v).getD k 0 = v := by
    intro k hk
    rw [Finset.mem_Ico] at hk
    rw [List.getD_eq_getElem?_getD, List.getElem?_replicate, if_pos (by omega),
      Option.getD_some]
  rw [Finset.sum_congr rfl h, Finset.sum_const, Nat.card_Ico, nsmul_eq_mul]

/-- C12 (amended, in exact arithmetic): for every `n ≥ 1` and every value `v`,
accumulating the window `[0, n)` of `n` copies of `v` from `0.0` and dividing by `n`
gives exactly `v`; the same holds for the mean `main` takes over the first quarter of
`4 * n` copies. -/
theorem C12_mean_of_constant_exact (n : ℕ) (hn : 1 ≤ n) (v : α) :
    (∃ total, accumulate (List.replicate n v) 0 n 0.0 = some total ∧ total = (n : α) * v ∧
      divInt total n = some v) ∧
    windowStats (List.replicate (4 * n) v) (4 * n) =
      some { quarter_len := n, mean := some v, integral := (n : α) * v } := by
  have hne : n ≠ 0 := by omega
  have hne2 : (n : α) ≠ 0 := Nat.cast_ne_zero.mpr hne
  constructor
  · refine ⟨(n : α) * v, ?_, rfl, ?_⟩
    · rw [accumulate_eq (List.replicate n v) n 0 n _ rfl (Nat.zero_le _)
        (by rw [List.length_replicate]), sum_getD_replicate 0 n n le_rfl, zero_lit, zero_add,
        Nat.sub_zero]
    · rw [divInt, if_neg hne, mul_div_cancel_left₀ _ hne2]
  · have hq : 4 * n / 4 = n := by omega
    rw [windowStats_eq _ _ (by rw [List.length_replicate]), hq,
      sum_getD_replicate 0 n (4 * n) (by omega), sum_getD_replicate n (2 * n) (4 * n) (by omega),
      divInt, if_neg hne, Nat.sub_zero, mul_div_cancel_left₀ _ hne2]
    have h2 : 2 * n - n = n := by omega
    rw [h2]

/-- Witness for `C12_mean_of_constant_exact`: three copies of `1 / 10`. -/
theorem C12_mean_of_constant_exact_witness :
    ∃ total, accumulate (List.replicate 3 (1 / 10 : ℚ)) 0 3 0.0 = some total ∧
      total = ((3 : ℕ) : ℚ) * (1 / 10) ∧ divInt total 3 = some (1 / 10) :=
  (C12_mean_of_constant_exact 3 (by decide) (1 / 10 : ℚ)).1

/-- C13: for every sequence and every non-empty window `[first, last)` inside it,
`accumulate` reads the elements `seq[first]`, ..., `seq[last - 1]` (all present) and
returns their sum, the mean formed from it is that sum of elements divided by
`last - first`, and the sum equals `last - first` times the mean, exactly (in exact
arithmetic). -/
theorem C13_sum_eq_length_mul_mean (seq : List α) (first last : ℕ) (h1 : first < last)
    (h2 : last ≤ seq.length) :
    ∃ total mean, accumulate seq first last 0.0 = some total ∧
      divInt total (last - first) = some mean ∧
      (∀ k, first ≤ k → k < last → seq[k]? = some (seq.getD k 0)) ∧
      total = ∑ k in Finset.Ico first last, seq.getD k 0 ∧
      mean = (∑ k in Finset.Ico first last, seq.getD k 0) / ((last - first : ℕ) : α) ∧
      total = ((last - first : ℕ) : α) * mean ∧
      ∑ k in Finset.Ico first last, seq.getD k 0 = ((last - first : ℕ) : α) * mean := by
  have hne : last - first ≠ 0 := by omega
  have hne2 : ((last - first : ℕ) : α) ≠ 0 := Nat.cast_ne_zero.mpr hne
  have hz : (0.0 : α) + ∑ k in Finset.Ico first last, seq.getD k 0
      = ∑ k in Finset.Ico first last, seq.getD k 0 := by rw [zero_lit, zero_add]
  refine ⟨∑ k in Finset.Ico first last, seq.getD k 0,
    (∑ k in Finset.Ico first last, seq.getD k 0) / ((last - first : ℕ) : α),
    ?_, ?_, ?_, rfl, rfl, ?_, ?_⟩
  · rw [← hz]; exact accumulate_eq seq (last - first) first last _ rfl h1.le h2
  · rw [divInt, if_neg hne]
  · intro k _ hk
    have hkl : k < seq.length := by omega
    rw [List.getD_eq_getElem?_getD, List.getElem?_eq_getElem hkl, Option.getD_some]
  · rw [mul_div_cancel₀ _ hne2]
  · rw [mul_div_cancel₀ _ hne2]

/-- Witness for `C13_sum_eq_length_mul_mean`: the window `[1, 3)` of `[1, 2, 3, 4]`,
with sum `2 + 3 = 5` and mean `5 / 2`. -/
theorem C13_sum_eq_length_mul_mean_witness :
    accumulate ([1, 2, 3, 4] : List ℚ) 1 3 0.0 = some 5 ∧
      divInt (5 : ℚ) (3 - 1) = some (5 / 2) ∧ (5 : ℚ) = ((3 - 1 : ℕ) : ℚ) * (5 / 2) := by
  obtain ⟨total, mean, ha, hd, _, ht, hm, hmul, _⟩ :=
    C13_sum_eq_length_mul_mean ([1, 2, 3, 4] : List ℚ) 1 3 (by decide) (by decide)
  have e : ∑ k in Finset.Ico 1 3, ([1, 2, 3, 4] : List ℚ).getD k 0 = 5 := by
    rw [Finset.sum_Ico_eq_sum_range]
    simp [Finset.sum_range_succ]
    norm_num
  rw [e] at ht hm
  have hm2 : mean = 5 / 2 := by rw [hm]; norm_num
  rw [ht] at ha hd hmul
  rw [hm2] at hd hmul
  exact ⟨ha, hd, hmul⟩

/-! ## Sample clock -/

/-- C14: for every sampling frequency `fs > 0` and every index `i < 501`, the time `t`
that `generate` holds in iteration `i` (start at `0`, add `time_interval = 1/fs` once
per earlier iteration) equals the spec clock `i * (1/fs)`; sample `i` of both variants
is formed at that time; the times are non-negative and strictly increasing with step
`1/fs`. -/
theorem C14_time_is_index_times_step (sinF : α → α) (f A p fs : α) (hfs : 0 < fs)
    (i : ℕ) (hi : i < 501) :
    timeAt (1.0 / fs) i = SampleClock_spec fs i ∧
      SampleClock_spec fs i = (i : α) * (1 / fs) ∧
      (SineWave.generate sinF (SineWave.init f A p fs)).samples[i]? =
        some (A * sinF (2 * PI * f * SampleClock_spec fs i
          + (if p = 90 then PI / 2 else 0))) ∧
      (SquareWave.generate sinF (SquareWave.init f A p fs)).samples[i]? =
        some (SquareWave.sign A (A * sinF (2 * PI * f * SampleClock_spec fs i
          + (if p = 90 then PI / 2 else 0)))) ∧
      0 ≤ timeAt (1.0 / fs) i ∧
      timeAt (1.0 / fs) i < timeAt (1.0 / fs) (i + 1) ∧
      timeAt (1.0 / fs) (i + 1) - timeAt (1.0 / fs) i = 1 / fs := by
  have hstep : (0 : α) < 1 / fs := one_div_pos.mpr hfs
  have ht : timeAt (1.0 / fs) i = SampleClock_spec fs i := by
    rw [timeAt_eq, one_lit, SampleClock_spec]
  have ht1 : timeAt (1 / fs) i = SampleClock_spec fs i := by
    rw [timeAt_eq, SampleClock_spec]
  refine ⟨ht, rfl, ?_, ?_, ?_, ?_, ?_⟩
  · rw [sine_generate_getElem? sinF _ rfl i hi, sineValue_init, ht1]
  · rw [square_generate_getElem? sinF _ rfl i hi, squareUnderlying_init, ht1]
    rfl
  · rw [ht, SampleClock_spec]
    exact mul_nonneg (Nat.cast_nonneg i) hstep.le
  · rw [timeAt_eq, timeAt_eq, one_lit]
    push_cast
    nlinarith
  · rw [timeAt_eq, timeAt_eq, one_lit]
    push_cast
    ring

/-- Witness for `C14_time_is_index_times_step`: index 5 at `fs = 200`. -/
theorem C14_time_is_index_times_step_witness :
    (0 : ℝ) < 200 ∧ 5 < 501 ∧ timeAt ((1.0 : ℝ) / 200) 5 = SampleClock_spec 200 5 ∧
      SampleClock_spec (200 : ℝ) 5 = ((5 : ℕ) : ℝ) * (1 / 200) :=
  ⟨by norm_num, by decide,
    (C14_time_is_index_times_step Real.sin 10 3 90 (200 : ℝ) (by norm_num) 5 (by decide)).1,
    (C14_time_is_index_times_step Real.sin 10 3 90 (200 : ℝ) (by norm_num) 5 (by decide)).2.1⟩

/-! ## Frame of `generate` -/

/-- C18: `generate` appends: for every wave, whatever its `samples` hold, `generate`
returns the same wave with `time_interval` set and `501` new samples appended after
the old ones (length `k + 501`, first `k` elements unchanged); `frequency`,
`amplitude`, `phase_offset`, `sampling_freq` and `sample_index` are unchanged. Two
calls on a fresh wave give `1002` samples, the second half equal to the first. -/
theorem C18_generate_appends (sinF : α → α) (w : SineWave α) (q : SquareWave α)
    (f A p fs : α) :
    (∃ new, new.length = 501 ∧
      SineWave.generate sinF w =
        { w with time_interval := some (1.0 / w.sampling_freq)
                 samples := w.samples ++ new }) ∧
    (∃ new, new.length = 501 ∧
      SquareWave.generate sinF q =
        { q with time_interval := some (1.0 / q.sampling_freq)
                 samples := q.samples ++ new }) ∧
    (SineWave.generate sinF w).samples.length = w.samples.length + 501 ∧
    (SquareWave.generate sinF q).samples.length = q.samples.length + 501 ∧
    (SineWave.generate sinF w).samples.take w.samples.length = w.samples ∧
    (SquareWave.generate sinF q).samples.take q.samples.length = q.samples ∧
    ((SineWave.generate sinF w).frequency = w.frequency ∧
      (SineWave.generate sinF w).amplitude = w.amplitude ∧
      (SineWave.generate sinF w).phase_offset = w.phase_offset ∧
      (SineWave.generate sinF w).sampling_freq = w.sampling_freq ∧
      (SineWave.generate sinF w).sample_index = w.sample_index) ∧
    ((SquareWave.generate sinF q).frequency = q.frequency ∧
      (SquareWave.generate sinF q).amplitude = q.amplitude ∧
      (SquareWave.generate sinF q).phase_offset = q.phase_offset ∧
      (SquareWave.generate sinF q).sampling_freq = q.sampling_freq ∧
      (SquareWave.generate sinF q).sample_index = q.sample_index) ∧
    ((SineWave.generate sinF (SineWave.generate sinF (SineWave.init f A p fs))).samples =
        (SineWave.generate sinF (SineWave.init f A p fs)).samples ++
          (SineWave.generate sinF (SineWave.init f A p fs)).samples ∧
      (SineWave.generate sinF (SineWave.generate sinF (SineWave.init f A p fs))
        ).samples.length = 1002) ∧
    ((SquareWave.generate sinF (SquareWave.generate sinF (SquareWave.init f A p fs))
        ).samples =
        (SquareWave.generate sinF (SquareWave.init f A p fs)).samples ++
          (SquareWave.generate sinF (SquareWave.init f A p fs)).samples ∧
      (SquareWave.generate sinF (SquareWave.generate sinF (SquareWave.init f A p fs))
        ).samples.length = 1002) := by
  have hs := sine_generate_samples sinF w
  have hq := square_generate_samples sinF q
  have hsl : ((List.range SIZE).map (fun i => sineValue sinF w i)).length = 501 := by
    rw [List.length_map, List.length_range]; rfl
  have hql : ((List.range SIZE).map
      (fun i => SquareWave.sign q.amplitude (squareUnderlying sinF q i))).length = 501 := by
    rw [List.length_map, List.length_range]; rfl
  refine ⟨⟨_, hsl, ?_⟩, ⟨_, hql, ?_⟩, ?_, ?_, ?_, ?_, ⟨rfl, rfl, rfl, rfl, rfl⟩,
    ⟨rfl, rfl, rfl, rfl, rfl⟩, ⟨?_, ?_⟩, ⟨?_, ?_⟩⟩
  · rw [← hs]; rfl
  · rw [← hq]; rfl
  · rw [hs, List.length_append, hsl]
  · rw [hq, List.length_append, hql]
  · rw [hs, List.take_left]
  · rw [hq, List.take_left]
  · have e : ∀ i, sineValue sinF (SineWave.generate sinF (SineWave.init f A p fs)) i =
        sineValue sinF (SineWave.init f A p fs) i := fun _ => rfl
    have h0 : (SineWave.init f A p fs).samples = [] := rfl
    rw [sine_generate_samples sinF (SineWave.generate sinF (SineWave.init f A p fs)),
      sine_generate_samples sinF (SineWave.init f A p fs)]
    simp only [e, h0, List.nil_append]
  · rw [sine_generate_length, sine_generate_length]
    rfl
  · have e : ∀ i, squareUnderlying sinF
        (SquareWave.generate sinF (SquareWave.init f A p fs)) i =
        squareUnderlying sinF (SquareWave.init f A p fs) i := fun _ => rfl
    have e2 : (SquareWave.generate sinF (SquareWave.init f A p fs)).amplitude =
        (SquareWave.init f A p fs).amplitude := rfl
    have h0 : (SquareWave.init f A p fs).samples = [] := rfl
    rw [square_generate_samples sinF (SquareWave.generate sinF (SquareWave.init f A p fs)),
      square_generate_samples sinF (SquareWave.init f A p fs)]
    simp only [e, e2, h0, List.nil_append]
  · rw [square_generate_length, square_generate_length]
    rfl

/-! ## Amplitude bound -/

theorem abs_sign_le (A v : α) : |SquareWave.sign A v| ≤ |A| := by
  unfold SquareWave.sign
  split_ifs
  · exact le_rfl
  · rw [abs_neg]
  · rw [zero_lit, abs_zero]; exact abs_nonneg A

theorem abs_sineValue_le (w : SineWave ℝ) (i : ℕ) :
    |sineValue Real.sin w i| ≤ |w.amplitude| := by
  rw [sineValue, abs_mul]
  exact mul_le_of_le_one_right (abs_nonneg _) (Real.abs_sin_le_one _)

theorem mixed_bound (a b : List α) (n : ℕ) (hna : n ≤ a.length) (hnb : n ≤ b.length)
    (Ba Bb : α) (ha : ∀ x ∈ a, |x| ≤ Ba) (hb : ∀ y ∈ b, |y| ≤ Bb) :
    ∀ m ∈ (List.range n).map (fun k => a.getD k 0 * b.getD k 0), |m| ≤ Ba * Bb := by
  intro m hm
  rw [List.mem_map] at hm
  obtain ⟨k, hk, rfl⟩ := hm
  rw [List.mem_range] at hk
  have hka : k < a.length := by omega
  have hkb : k < b.length := by omega
  rw [List.getD_eq_getElem?_getD, List.getD_eq_getElem?_getD, List.getElem?_eq_getElem hka,
    List.getElem?_eq_getElem hkb, Option.getD_some, Option.getD_some, abs_mul]
  have h1 := ha _ (List.getElem_mem hka)
  have h2 := hb _ (List.getElem_mem hkb)
  exact mul_le_mul h1 h2 (abs_nonneg _) (le_trans (abs_nonneg _) h1)

theorem sine_samples_bound (f A p fs : ℝ) :
    ∀ s ∈ (SineWave.generate Real.sin (SineWave.init f A p fs)).samples, |s| ≤ |A| := by
  intro s hs
  rw [sine_generate_samples] at hs
  have h0 : (SineWave.init f A p fs).samples = [] := rfl
  rw [h0, List.nil_append, List.mem_map] at hs
  obtain ⟨k, _, rfl⟩ := hs
  exact abs_sineValue_le (SineWave.init f A p fs) k

theorem square_samples_bound (sinF : α → α) (f A p fs : α) :
    ∀ s ∈ (SquareWave.generate sinF (SquareWave.init f A p fs)).samples, |s| ≤ |A| := by
  intro s hs
  rw [square_generate_samples] at hs
  have h0 : (SquareWave.init f A p fs).samples = [] := rfl
  rw [h0, List.nil_append, List.mem_map] at hs
  obtain ⟨k, _, rfl⟩ := hs
  exact abs_sign_le A _

/-- C19: every sample produced by `SineWave::generate` or `SquareWave::generate` on a
fresh wave has absolute value at most `|amplitude|`; hence every mixed sample of a sine
of amplitude `A1` and a square of amplitude `A2` has absolute value at most
`|A1| * |A2|`, and every mixed sample of `main` at most `3` (whatever the rounding
`toDouble` of the dump clock). -/
theorem C19_amplitude_bound (toDouble : ℝ → Binary64) (f A1 p fs f2 A2 p2 fs2 : ℝ) :
    (∀ s ∈ (SineWave.generate Real.sin (SineWave.init f A1 p fs)).samples, |s| ≤ |A1|) ∧
    (∀ s ∈ (SquareWave.generate Real.sin (SquareWave.init f2 A2 p2 fs2)).samples,
      |s| ≤ |A2|) ∧
    (∃ mixed, combine (SineWave.generate Real.sin (SineWave.init f A1 p fs)).samples
        (SquareWave.generate Real.sin (SquareWave.init f2 A2 p2 fs2)).samples = some mixed ∧
      ∀ m ∈ mixed, |m| ≤ |A1| * |A2|) ∧
    (∃ sine_dump square_dump mixed_signal stats,
      main toDouble Real.sin =
        some { sine_dump := sine_dump, square_dump := square_dump,
               mixed_signal := mixed_signal, stats := stats } ∧
      ∀ m ∈ mixed_signal, |m| ≤ 3) := by
  obtain ⟨sd, qd, _, _, hm⟩ := main_runs toDouble Real.sin
  refine ⟨sine_samples_bound f A1 p fs, square_samples_bound Real.sin f2 A2 p2 fs2,
    ⟨_, combine_eq _ _, ?_⟩, ⟨sd, qd, _, _, hm, ?_⟩⟩
  · exact mixed_bound _ _ _ (Nat.min_le_left _ _) (Nat.min_le_right _ _) _ _
      (sine_samples_bound f A1 p fs) (square_samples_bound Real.sin f2 A2 p2 fs2)
  · have h := mixed_bound _ _ 501
      (le_of_eq (sine_fresh_length Real.sin (10 : ℝ) 3 90 200).symm)
      (le_of_eq (square_fresh_length Real.sin (40 : ℝ) 1 0 200).symm) _ _
      (sine_samples_bound 10 3 90 200) (square_samples_bound Real.sin 40 1 0 200)
    have e : |(3 : ℝ)| * |(1 : ℝ)| = 3 := by norm_num
    rw [e] at h
    exact h

/-- Witness for `C19_amplitude_bound`: the sample `0` that the reference square holds
at index 0. -/
theorem C19_amplitude_bound_witness :
    (0 : ℝ) ∈ (SquareWave.generate Real.sin (SquareWave.init (40 : ℝ) 1 0 200)).samples ∧
      |(0 : ℝ)| ≤ |(1 : ℝ)| := by
  have e1 : squareUnderlying Real.sin (SquareWave.init (40 : ℝ) 1 0 200) 0 = 0 := by
    simp [squareUnderlying, SquareWave.init, timeAt, theta, zero_lit, ninety_lit, two_lit]
  have h := square_generate_getElem? Real.sin (SquareWave.init (40 : ℝ) 1 0 200) rfl 0
    (by decide)
  rw [e1] at h
  have e2 : SquareWave.sign (SquareWave.init (40 : ℝ) 1 0 200).amplitude 0 = 0 := by
    simp [SquareWave.sign, zero_lit]
  rw [e2] at h
  have hmem := List.getElem?_mem h
  exact ⟨hmem,
    (C19_amplitude_bound (fun _ => Binary64.zero) 10 3 90 200 40 1 0 200).2.1 0 hmem⟩

/-! ## Safety of the reference run -/

/-- C20: the reference run takes no error branch, whatever the rounding `toDouble` of
the dump clock: `main` returns (every `samples[i]` read by the two `show_samples` calls
and by the mixing loop is inside its vector), each dump has at most `SIZE = 501`
values, both sample vectors and the mixed signal have `501` elements,
`quarter_len = 125` is not `0` and the mean is a real number, and
`2 * quarter_len = 250 ≤ 501`; for every length `L`, `2 * (L / 4) ≤ L`. -/
theorem C20_reference_run_is_safe (toDouble : α → Binary64) (sinF : α → α) :
    (∃ sine_dump square_dump mixed_signal mean integral,
      main toDouble sinF =
        some { sine_dump := sine_dump, square_dump := square_dump,
               mixed_signal := mixed_signal,
               stats := { quarter_len := 125, mean := some mean,
                          integral := integral } } ∧
      sine_dump.length ≤ SIZE ∧ square_dump.length ≤ SIZE ∧
      (SineWave.generate sinF (SineWave.init 10 3 90 200)).samples.length = 501 ∧
      (SquareWave.generate sinF (SquareWave.init 40 1 0 200)).samples.length = 501 ∧
      mixed_signal.length = 501 ∧
      2 * 125 ≤ mixed_signal.length) ∧
    (125 : ℕ) ≠ 0 ∧ SIZE = 501 ∧ min 501 501 = 501 ∧ 501 / 4 = 125 ∧
    ∀ L : ℕ, 2 * (L / 4) ≤ L := by
  obtain ⟨sd, qd, h1, h2, hm⟩ := main_runs toDouble sinF
  refine ⟨⟨sd, qd, _, _, _, hm, h1, h2, sine_fresh_length sinF 10 3 90 200,
    square_fresh_length sinF 40 1 0 200, ?_, ?_⟩, by decide, rfl, by decide,
    by decide, fun L => by omega⟩
  · rw [List.length_map, List.length_range]
  · rw [List.length_map, List.length_range]; decide

/-! ## The sample dump -/

/-- C15 (as stated, refuted): for the reference sine, `fs = 200`, with each constant
the double nearest to it, `show_samples` prints the `202` samples at the indices
`0..201` and not the `203` samples at the indices `0..202`, although index `202` has
`t_202 = 202 / 200 = DURATION + DIFF` in exact arithmetic: the double `t` reached after
`202` additions of the step is `4548635623644203 * 2^(-52)`, above the double
`DURATION + DIFF = 4548635623644201 * 2^(-52)`. (The sample values do not enter; `sin`
is replaced by the identity on `ℚ`.) -/
theorem C15_index_202_not_printed :
    SineWave.show_samples Binary64.ofRat
        (SineWave.generate (fun x : ℚ => x) (SineWave.init 10 3 90 200)) =
      some ((List.range 202).map (fun i =>
        (SineWave.generate (fun x : ℚ => x) (SineWave.init 10 3 90 200)).samples.getD i 0)) ∧
    SineWave.show_samples Binary64.ofRat
        (SineWave.generate (fun x : ℚ => x) (SineWave.init 10 3 90 200)) ≠
      some ((List.range 203).map (fun i =>
        (SineWave.generate (fun x : ℚ => x) (SineWave.init 10 3 90 200)).samples.getD i 0)) ∧
    ((202 : ℕ) : ℚ) / 200 = DURATION + DIFF ∧
    (202 : ℕ) < SIZE ∧
    Binary64.ofRat ((1.0 : ℚ) / 200) = { neg := false, m := 5764607523034235, e := -60 } ∧
    Binary64.clockAt (Binary64.ofRat ((1.0 : ℚ) / 200)) 202 =
      { neg := false, m := 4548635623644203, e := -52 } ∧
    Binary64.add (Binary64.ofRat (DURATION : ℚ)) (Binary64.ofRat (DIFF : ℚ)) =
      { neg := false, m := 4548635623644201, e := -52 } := by
  have hs := sine_show_ref Binary64.ofRat ofRat_DURATION ofRat_DIFF ofRat_ref_step
    (fun x : ℚ => x) 10 3 90
  refine ⟨hs, ?_, ?_, by decide, ?_, ?_, ?_⟩
  · rw [hs]; exact range_map_ne _ 202 203 (by decide)
  · simp only [DURATION, DIFF]; norm_num
  · rw [ofRat_ref_step]; decide!
  · rw [ofRat_ref_step]; decide!
  · rw [ofRat_DURATION, ofRat_DIFF]; decide!

/-- C15 (amended): for a fresh wave on which `generate` has been called once,
`show_samples` returns, for both variants, the samples at the indices `0..c-1` in index
order, where `c ≤ 501` is the first index at which the double clock (`0.0` followed by
`c` rounded additions of the double `time_interval`) exceeds the double
`DURATION + DIFF`, or `501` when there is none. For `fs = 200`, with the literals `1.0`
and `0.01` and the quotient `1.0 / 200` each rounded to the nearest double, these are
the `202` samples at the indices `0..201`: the clock does not exceed the limit at index
`201` and exceeds it at index `202`. -/
theorem C15_show_samples_cutoff_by_clock (toDouble : α → Binary64) (sinF : α → α)
    (f A p fs : α)
    (hDURATION : toDouble DURATION = Binary64.ofFrac false 1 1)
    (hDIFF : toDouble DIFF = Binary64.ofFrac false 1 100)
    (h200 : toDouble (1.0 / 200) = Binary64.ofFrac false 1 200) :
    (∃ c, c ≤ 501 ∧
      SineWave.show_samples toDouble (SineWave.generate sinF (SineWave.init f A p fs)) =
        some ((List.range c).map (fun i =>
          (SineWave.generate sinF (SineWave.init f A p fs)).samples.getD i 0)) ∧
      SquareWave.show_samples toDouble
          (SquareWave.generate sinF (SquareWave.init f A p fs)) =
        some ((List.range c).map (fun i =>
          (SquareWave.generate sinF (SquareWave.init f A p fs)).samples.getD i 0)) ∧
      (∀ k, k < c →
        Binary64.lt (Binary64.add (toDouble DURATION) (toDouble DIFF))
          (Binary64.clockAt (toDouble (1.0 / fs)) k) = false) ∧
      (c < 501 →
        Binary64.lt (Binary64.add (toDouble DURATION) (toDouble DIFF))
          (Binary64.clockAt (toDouble (1.0 / fs)) c) = true)) ∧
    SineWave.show_samples toDouble (SineWave.generate sinF (SineWave.init f A p 200)) =
      some ((List.range 202).map (fun i =>
        (SineWave.generate sinF (SineWave.init f A p 200)).samples.getD i 0)) ∧
    SquareWave.show_samples toDouble (SquareWave.generate sinF (SquareWave.init f A p 200)) =
      some ((List.range 202).map (fun i =>
        (SquareWave.generate sinF (SquareWave.init f A p 200)).samples.getD i 0)) ∧
    ((List.range 202).map (fun i =>
        (SineWave.generate sinF (SineWave.init f A p 200)).samples.getD i 0)).length = 202 ∧
    Binary64.lt (Binary64.add (toDouble DURATION) (toDouble DIFF))
      (Binary64.clockAt (toDouble (1.0 / 200)) 201) = false ∧
    Binary64.lt (Binary64.add (toDouble DURATION) (toDouble DIFF))
      (Binary64.clockAt (toDouble (1.0 / 200)) 202) = true := by
  refine ⟨show_samples_initial toDouble sinF f A p fs f A p,
    sine_show_ref toDouble hDURATION hDIFF h200 sinF f A p,
    square_show_ref toDouble hDURATION hDIFF h200 sinF f A p, ?_, ?_, ?_⟩
  · rw [List.length_map, List.length_range]
  · rw [hDURATION, hDIFF, h200]; exact ref_clock_below 201 (by decide)
  · rw [hDURATION, hDIFF, h200]; exact ref_clock_cut

/-- Witness for `C15_show_samples_cutoff_by_clock`: the reference square on `ℚ`, with
every constant rounded to the nearest double. -/
theorem C15_show_samples_cutoff_by_clock_witness :
    Binary64.ofRat (DURATION : ℚ) = Binary64.ofFrac false 1 1 ∧
      Binary64.ofRat (DIFF : ℚ) = Binary64.ofFrac false 1 100 ∧
      Binary64.ofRat ((1.0 : ℚ) / 200) = Binary64.ofFrac false 1 200 ∧
      SquareWave.show_samples Binary64.ofRat
          (SquareWave.generate (fun x : ℚ => x) (SquareWave.init 40 1 0 200)) =
        some ((List.range 202).map (fun i =>
          (SquareWave.generate (fun x : ℚ => x) (SquareWave.init 40 1 0 200)).samples.getD
            i 0)) :=
  ⟨ofRat_DURATION, ofRat_DIFF, ofRat_ref_step,
    (C15_show_samples_cutoff_by_clock Binary64.ofRat (fun x : ℚ => x) 40 1 0 200
      ofRat_DURATION ofRat_DIFF ofRat_ref_step).2.2.1⟩

/-! ## Quarter windows against the documented times -/

theorem time_lt_iff (i n : ℕ) :
    timeAt ((1.0 : α) / 200) i < (n : α) / 200 ↔ i < n := by
  rw [timeAt_eq, one_lit, mul_one_div, div_lt_div_iff_of_pos_right (by norm_num : (0 : α) < 200)]
  exact Nat.cast_lt

theorem time_le_iff (i n : ℕ) :
    (n : α) / 200 ≤ timeAt ((1.0 : α) / 200) i ↔ n ≤ i := by
  rw [timeAt_eq, one_lit, mul_one_div, div_le_div_iff_of_pos_right (by norm_num : (0 : α) < 200)]
  exact Nat.cast_le

/-- C16 (what the code does): in the reference run the mean is taken over the mixed
indices `[0, 125)` and the sum over `[125, 250)`, while at `fs = 200` the samples with
`0 ≤ t_i < 0.25` are exactly the indices `[0, 50)` and those with `0.25 ≤ t_i < 0.5`
exactly the indices `[50, 100)`: the mean window reaches up to `t = 0.62` and the sum
window runs from `t = 0.625` to `t = 1.245`. -/
theorem C16_quarter_windows_exceed_documented_times (toDouble : α → Binary64)
    (sinF : α → α) :
    (∃ sine_dump square_dump mixed_signal mean integral,
      main toDouble sinF =
        some { sine_dump := sine_dump, square_dump := square_dump,
               mixed_signal := mixed_signal,
               stats := { quarter_len := 125, mean := some mean,
                          integral := integral } } ∧
      mean = (∑ i in Finset.Ico 0 125, mixed_signal.getD i 0) / 125 ∧
      integral = ∑ i in Finset.Ico 125 250, mixed_signal.getD i 0) ∧
    (∀ i : ℕ, timeAt ((1.0 : α) / 200) i < 0.25 ↔ i < 50) ∧
    (∀ i : ℕ, (0.25 ≤ timeAt ((1.0 : α) / 200) i ∧ timeAt ((1.0 : α) / 200) i < 0.5) ↔
      (50 ≤ i ∧ i < 100)) ∧
    timeAt ((1.0 : α) / 200) 50 = 0.25 ∧
    timeAt ((1.0 : α) / 200) 124 = 0.62 ∧
    timeAt ((1.0 : α) / 200) 125 = 0.625 ∧
    timeAt ((1.0 : α) / 200) 249 = 1.245 := by
  have e1 : (0.25 : α) = ((50 : ℕ) : α) / 200 := by norm_num
  have e2 : (0.5 : α) = ((100 : ℕ) : α) / 200 := by norm_num
  obtain ⟨sd, qd, _, _, hm⟩ := main_runs toDouble sinF
  refine ⟨⟨sd, qd, _, _, _, hm, rfl, rfl⟩, ?_, ?_, ?_, ?_, ?_, ?_⟩
  · intro i; rw [e1]; exact time_lt_iff i 50
  · intro i; rw [e1, e2, time_le_iff, time_lt_iff]
  · rw [timeAt_eq]; norm_num
  · rw [timeAt_eq]; norm_num
  · rw [timeAt_eq]; norm_num
  · rw [timeAt_eq]; norm_num

/-! ## Zeros of the reference square -/

theorem sin_rat_ne_zero (q : ℚ) (hq : q ≠ 0) : Real.sin (q : ℝ) ≠ 0 := by
  intro h
  rw [Real.sin_eq_zero_iff] at h
  obtain ⟨n, hn⟩ := h
  have hn0 : n ≠ 0 := by
    rintro rfl
    simp only [Int.cast_zero, zero_mul] at hn
    exact hq (by exact_mod_cast hn.symm)
  exact (irrational_pi.int_mul hn0).ne_rat q hn

theorem ref_square_underlying (i : ℕ) :
    squareUnderlying Real.sin (SquareWave.init (40 : ℝ) 1 0 200) i =
      Real.sin (((2 * (31415926 / 10000000) * 40 * ((i : ℚ) * (1 / 200)) : ℚ) : ℝ)) := by
  simp only [squareUnderlying, SquareWave.init, theta, timeAt_eq, PI, one_lit]
  norm_num

theorem ref_square_underlying_ne_zero (i : ℕ) (hi : i ≠ 0) :
    squareUnderlying Real.sin (SquareWave.init (40 : ℝ) 1 0 200) i ≠ 0 := by
  rw [ref_square_underlying]
  apply sin_rat_ne_zero
  have : (i : ℚ) ≠ 0 := Nat.cast_ne_zero.mpr hi
  positivity

/-- C17: for the reference square `Square(f=40, A=1, phase=0, fs=200)` generated with
`PI = 3.1415926`, the sample at index `i < 501` is `0` if and only if `i = 0`; every
other sample is `+1` or `-1`, because the underlying value `sin(2*PI*40*(i/200))` is
not `0` (in particular at the indices `5, 10, 15, ...`). -/
theorem C17_reference_square_zero_only_at_start (i : ℕ) (hi : i < 501) :
    ∃ s : ℝ,
      (SquareWave.generate Real.sin (SquareWave.init (40 : ℝ) 1 0 200)).samples[i]? =
        some s ∧
      (s = 0 ↔ i = 0) ∧
      (i ≠ 0 → (s = 1 ∨ s = -1) ∧
        (1 : ℝ) * Real.sin (2 * PI * 40 * timeAt (1 / 200) i + 0) ≠ 0) := by
  have hA : (SquareWave.init (40 : ℝ) 1 0 200).amplitude = 1 := rfl
  have hu := squareUnderlying_init Real.sin (40 : ℝ) 1 0 200 i
  rw [if_neg (by norm_num : ¬ ((0 : ℝ) = 90))] at hu
  refine ⟨_, square_generate_getElem? Real.sin _ rfl i hi, ?_, ?_⟩
  · rw [hA]
    constructor
    · intro h
      by_contra hne
      have hv := ref_square_underlying_ne_zero i hne
      have := (sign_cases (1 : ℝ) (Real.sin (2 * PI * 40 * timeAt (1 / 200) i + 0))).1
      rw [← hu] at this
      exact hv (this.mp h)
    · rintro rfl
      have := (sign_cases (1 : ℝ) (Real.sin (2 * PI * 40 * timeAt (1 / 200) 0 + 0))).1
      rw [← hu] at this
      apply this.mpr
      rw [hu]
      simp [timeAt, zero_lit]
  · intro hne
    have hv := ref_square_underlying_ne_zero i hne
    rw [hA]
    refine ⟨?_, by rw [← hu]; exact hv⟩
    rcases lt_or_gt_of_ne hv with h | h
    · right
      rw [SquareWave.sign, if_neg (not_lt.mpr h.le), if_pos h]
    · left
      rw [SquareWave.sign, if_pos h]

/-- Witness for `C17_reference_square_zero_only_at_start`: index 5, where an ideal
40 Hz sine sampled at 200 Hz would cross zero. -/
theorem C17_reference_square_zero_only_at_start_witness :
    5 < 501 ∧ (5 : ℕ) ≠ 0 ∧
      ∃ s : ℝ,
        (SquareWave.generate Real.sin (SquareWave.init (40 : ℝ) 1 0 200)).samples[5]? =
          some s ∧ (s = 1 ∨ s = -1) := by
  obtain ⟨s, h1, _, h3⟩ := C17_reference_square_zero_only_at_start 5 (by decide)
  exact ⟨by decide, by decide, s, h1, (h3 (by decide)).1⟩

/-! ## The mean of identical values in double precision -/

theorem ilog2Aux_spec (fuel : ℕ) :
    ∀ n, 1 ≤ n → n ≤ fuel →
      2 ^ Binary64.ilog2Aux fuel n ≤ n ∧ n < 2 ^ (Binary64.ilog2Aux fuel n + 1) := by
  induction fuel with
  | zero => intro n h1 h2; omega
  | succ fuel ih =>
    intro n h1 h2
    rw [Binary64.ilog2Aux]
    by_cases hn : n < 2
    · rw [if_pos hn]
      constructor
      · simpa using h1
      · simpa using hn
    · rw [if_neg hn]
      obtain ⟨ha, hb⟩ := ih (n / 2) (by omega) (by omega)
      constructor
      · rw [pow_succ]; omega
      · rw [pow_succ] at hb ⊢; omega

/-- The leading-bit position used by the rounding is the floor of the binary
logarithm: `2 ^ ilog2 n ≤ n < 2 ^ (ilog2 n + 1)` for `n ≥ 1`. -/
theorem ilog2_spec (n : ℕ) (h : 1 ≤ n) :
    2 ^ Binary64.ilog2 n ≤ n ∧ n < 2 ^ (Binary64.ilog2 n + 1) :=
  ilog2Aux_spec n n h le_rfl

theorem two_zpow_toNat (s : ℤ) (h : 0 ≤ s) : ((2 : ℚ) ^ s.toNat) = (2 : ℚ) ^ s := by
  rw [← zpow_natCast, Int.toNat_of_nonneg h]

theorem two_zpow_neg_toNat (s : ℤ) (h : ¬ 0 ≤ s) :
    ((2 : ℚ) ^ (-s).toNat) = ((2 : ℚ) ^ s)⁻¹ := by
  rw [← zpow_natCast, Int.toNat_of_nonneg (by omega), zpow_neg]

/-- The fraction the rounding works on, after scaling by `2^s`. -/
theorem scaled_fraction (p d : ℕ) (s : ℤ) :
    (((if 0 ≤ s then p * 2 ^ s.toNat else p : ℕ) : ℚ) /
      ((if 0 ≤ s then d else d * 2 ^ (-s).toNat : ℕ) : ℚ)) = (p : ℚ) / d * (2 : ℚ) ^ s := by
  by_cases h : 0 ≤ s
  · rw [if_pos h, if_pos h]
    push_cast
    rw [two_zpow_toNat s h]
    ring
  · rw [if_neg h, if_neg h]
    push_cast
    rw [two_zpow_neg_toNat s h]
    have : (2 : ℚ) ^ s ≠ 0 := zpow_ne_zero _ (by norm_num)
    field_simp

theorem scaled_eq_floor (p d : ℕ) (s : ℤ) :
    Binary64.scaled p d s = ⌊(p : ℚ) / d * (2 : ℚ) ^ s⌋₊ := by
  rw [← scaled_fraction, Binary64.scaled]
  by_cases h : 0 ≤ s
  · rw [if_pos h, if_pos h, if_pos h, Nat.floor_div_eq_div]
  · rw [if_neg h, if_neg h, if_neg h, Nat.floor_div_eq_div]


theorem scaled_range (p d : ℕ) (hp : 1 ≤ p) (hd : 1 ≤ d) :
    (2 : ℚ) ^ 52 < (p : ℚ) / d *
        (2 : ℚ) ^ (53 + (Binary64.ilog2 d : ℤ) - (Binary64.ilog2 p : ℤ)) ∧
      (p : ℚ) / d * (2 : ℚ) ^ (53 + (Binary64.ilog2 d : ℤ) - (Binary64.ilog2 p : ℤ))
        < (2 : ℚ) ^ 54 := by
  obtain ⟨hp0, hp1⟩ := ilog2_spec p hp
  obtain ⟨hd0, hd1⟩ := ilog2_spec d hd
  have hp0' : (2 : ℚ) ^ (Binary64.ilog2 p : ℤ) ≤ p := by
    rw [zpow_natCast]; exact_mod_cast hp0
  have hp1' : (p : ℚ) < (2 : ℚ) ^ ((Binary64.ilog2 p : ℤ) + 1) := by
    rw [show ((Binary64.ilog2 p : ℤ) + 1) = ((Binary64.ilog2 p + 1 : ℕ) : ℤ) by push_cast; rfl,
      zpow_natCast]
    exact_mod_cast hp1
  have hd0' : (2 : ℚ) ^ (Binary64.ilog2 d : ℤ) ≤ d := by
    rw [zpow_natCast]; exact_mod_cast hd0
  have hd1' : (d : ℚ) < (2 : ℚ) ^ ((Binary64.ilog2 d : ℤ) + 1) := by
    rw [show ((Binary64.ilog2 d : ℤ) + 1) = ((Binary64.ilog2 d + 1 : ℕ) : ℤ) by push_cast; rfl,
      zpow_natCast]
    exact_mod_cast hd1
  have hdpos : (0 : ℚ) < d := by exact_mod_cast hd
  have h2 : (2 : ℚ) ≠ 0 := by norm_num
  set lp : ℤ := (Binary64.ilog2 p : ℤ)
  set ld : ℤ := (Binary64.ilog2 d : ℤ)
  have hs : (0 : ℚ) < (2 : ℚ) ^ (53 + ld - lp) := zpow_pos (by norm_num) _
  have e1 : (2 : ℚ) ^ (lp + 1) * (2 : ℚ) ^ (53 + ld - lp) = (2 : ℚ) ^ 54 * (2 : ℚ) ^ ld := by
    rw [← zpow_add₀ h2, ← zpow_natCast, ← zpow_add₀ h2]
    congr 1; push_cast; ring
  have e2 : (2 : ℚ) ^ lp * (2 : ℚ) ^ (53 + ld - lp) = (2 : ℚ) ^ 52 * (2 : ℚ) ^ (ld + 1) := by
    rw [← zpow_add₀ h2, ← zpow_natCast, ← zpow_add₀ h2]
    congr 1; push_cast; ring
  constructor
  · rw [div_mul_eq_mul_div, lt_div_iff₀ hdpos]
    calc (2 : ℚ) ^ 52 * d < (2 : ℚ) ^ 52 * (2 : ℚ) ^ (ld + 1) := by
          apply mul_lt_mul_of_pos_left hd1'; positivity
      _ = (2 : ℚ) ^ lp * (2 : ℚ) ^ (53 + ld - lp) := e2.symm
      _ ≤ p * (2 : ℚ) ^ (53 + ld - lp) := by
          apply mul_le_mul_of_nonneg_right hp0' hs.le
  · rw [div_mul_eq_mul_div, div_lt_iff₀ hdpos]
    calc (p : ℚ) * (2 : ℚ) ^ (53 + ld - lp)
        < (2 : ℚ) ^ (lp + 1) * (2 : ℚ) ^ (53 + ld - lp) := by
          apply mul_lt_mul_of_pos_right hp1' hs
      _ = (2 : ℚ) ^ 54 * (2 : ℚ) ^ ld := e1
      _ ≤ (2 : ℚ) ^ 54 * d := by
          apply mul_le_mul_of_nonneg_left hd0'; positivity


theorem roundAt_spec (p d : ℕ) (hd : 1 ≤ d) (s1 : ℤ)
    (hlo : (2 : ℚ) ^ 52 ≤ (p : ℚ) / d * (2 : ℚ) ^ s1)
    (hhi : (p : ℚ) / d * (2 : ℚ) ^ s1 < (2 : ℚ) ^ 53) :
    2 ^ 52 ≤ (Binary64.roundAt p d s1).1 ∧ (Binary64.roundAt p d s1).1 < 2 ^ 53 ∧
      |(p : ℚ) / d - ((Binary64.roundAt p d s1).1 : ℚ) * (2 : ℚ) ^ (Binary64.roundAt p d s1).2|
        ≤ (2 : ℚ) ^ (Binary64.roundAt p d s1).2 / 2 := by
  have hfrac := scaled_fraction p d s1
  have h2 : (2 : ℚ) ≠ 0 := by norm_num
  have hpow : (0 : ℚ) < (2 : ℚ) ^ s1 := zpow_pos (by norm_num) _
  have hpown : (0 : ℚ) < (2 : ℚ) ^ (-s1) := zpow_pos (by norm_num) _
  have hinv : (2 : ℚ) ^ s1 * (2 : ℚ) ^ (-s1) = 1 := by
    rw [← zpow_add₀ h2]; simp
  unfold Binary64.roundAt
  simp only []
  generalize hnum : (if 0 ≤ s1 then p * 2 ^ s1.toNat else p : ℕ) = num at hfrac ⊢
  generalize hden : (if 0 ≤ s1 then d else d * 2 ^ (-s1).toNat : ℕ) = den at hfrac ⊢
  have hdenpos : 0 < den := by
    rw [← hden]
    by_cases h : 0 ≤ s1
    · rw [if_pos h]; omega
    · rw [if_neg h]; positivity
  have hdenq : (0 : ℚ) < den := by exact_mod_cast hdenpos
  have hX0 : (0 : ℚ) ≤ (num : ℚ) / den := by positivity
  have hfloor : num / den = ⌊(num : ℚ) / den⌋₊ := (Nat.floor_div_eq_div num den).symm
  have hn_lo : 2 ^ 52 ≤ num / den := by
    rw [hfloor]
    apply Nat.le_floor
    rw [hfrac]; exact_mod_cast hlo
  have hn_hi : num / den < 2 ^ 53 := by
    rw [hfloor, Nat.floor_lt hX0, hfrac]
    exact_mod_cast hhi
  have hdm := Nat.div_add_mod num den
  have hr := Nat.mod_lt num hdenpos
  generalize hn : num / den = n at hn_lo hn_hi hdm ⊢
  generalize hrr : num % den = r at hdm hr ⊢
  have hX : (p : ℚ) / d * (2 : ℚ) ^ s1 = n + (r : ℚ) / den := by
    rw [← hfrac, ← hdm]
    push_cast
    field_simp
    ring
  have hrq : (r : ℚ) < den := by exact_mod_cast hr
  -- the rounded integer
  have hm : ∀ m : ℕ, (m = n ∨ m = n + 1) →
      |(p : ℚ) / d * (2 : ℚ) ^ s1 - m| ≤ 1 / 2 →
      2 ^ 52 ≤ (if m = 2 ^ 53 then ((2 : ℕ) ^ 52, 1 - s1) else (m, -s1)).1 ∧
      (if m = 2 ^ 53 then ((2 : ℕ) ^ 52, 1 - s1) else (m, -s1)).1 < 2 ^ 53 ∧
      |(p : ℚ) / d -
          ((if m = 2 ^ 53 then ((2 : ℕ) ^ 52, 1 - s1) else (m, -s1)).1 : ℚ) *
            (2 : ℚ) ^ (if m = 2 ^ 53 then ((2 : ℕ) ^ 52, 1 - s1) else (m, -s1)).2|
        ≤ (2 : ℚ) ^ (if m = 2 ^ 53 then ((2 : ℕ) ^ 52, 1 - s1) else (m, -s1)).2 / 2 := by
    intro m hmn hclose
    have hval : |(p : ℚ) / d - (m : ℚ) * (2 : ℚ) ^ (-s1)| ≤ (2 : ℚ) ^ (-s1) / 2 := by
      have e : (p : ℚ) / d - (m : ℚ) * (2 : ℚ) ^ (-s1) =
          ((p : ℚ) / d * (2 : ℚ) ^ s1 - m) * (2 : ℚ) ^ (-s1) := by
        rw [sub_mul, mul_assoc, hinv, mul_one]
      rw [e, abs_mul, abs_of_pos hpown]
      calc |(p : ℚ) / d * (2 : ℚ) ^ s1 - m| * (2 : ℚ) ^ (-s1)
          ≤ 1 / 2 * (2 : ℚ) ^ (-s1) := mul_le_mul_of_nonneg_right hclose hpown.le
        _ = (2 : ℚ) ^ (-s1) / 2 := by ring
    by_cases h53 : m = 2 ^ 53
    · rw [if_pos h53]
      refine ⟨le_rfl, by norm_num, ?_⟩
      have e2 : (((2 : ℕ) ^ 52 : ℕ) : ℚ) * (2 : ℚ) ^ (1 - s1) = (m : ℚ) * (2 : ℚ) ^ (-s1) := by
        rw [h53, show (1 - s1) = 1 + -s1 by ring, zpow_add₀ h2]
        push_cast
        ring
      have e3 : (2 : ℚ) ^ (1 - s1) = 2 * (2 : ℚ) ^ (-s1) := by
        rw [show (1 - s1) = 1 + -s1 by ring, zpow_add₀ h2, zpow_one]
      show |(p : ℚ) / d - (((2 : ℕ) ^ 52 : ℕ) : ℚ) * (2 : ℚ) ^ (1 - s1)| ≤
        (2 : ℚ) ^ (1 - s1) / 2
      rw [e2, e3]
      linarith
    · rw [if_neg h53]
      refine ⟨?_, ?_, hval⟩
      · show 2 ^ 52 ≤ m
        rcases hmn with h | h <;> omega
      · show m < 2 ^ 53
        rcases hmn with h | h <;> omega
  by_cases c1 : 2 * r < den
  · rw [if_pos c1]
    apply hm n (Or.inl rfl)
    rw [hX, add_sub_cancel_left, abs_of_nonneg (by positivity), div_le_iff₀ hdenq]
    have : (2 : ℚ) * r < den := by exact_mod_cast c1
    linarith
  · rw [if_neg c1]
    have habove : |(p : ℚ) / d * (2 : ℚ) ^ s1 - ((n + 1 : ℕ) : ℚ)| ≤ 1 / 2 := by
      have c1' : (den : ℚ) ≤ 2 * r := by exact_mod_cast not_lt.mp c1
      have e : (p : ℚ) / d * (2 : ℚ) ^ s1 - ((n + 1 : ℕ) : ℚ) = -(1 - (r : ℚ) / den) := by
        rw [hX]; push_cast; ring
      have hle : (r : ℚ) / den ≤ 1 := by rw [div_le_one hdenq]; exact hrq.le
      rw [e, abs_neg, abs_of_nonneg (by linarith), sub_le_comm, le_div_iff₀ hdenq]
      linarith
    have hbelow : ¬ den < 2 * r → |(p : ℚ) / d * (2 : ℚ) ^ s1 - (n : ℚ)| ≤ 1 / 2 := by
      intro c2
      have c2' : (2 : ℚ) * r ≤ den := by exact_mod_cast not_lt.mp c2
      rw [hX, add_sub_cancel_left, abs_of_nonneg (by positivity), div_le_iff₀ hdenq]
      linarith
    by_cases c2 : den < 2 * r
    · rw [if_pos c2]
      exact hm (n + 1) (Or.inr rfl) habove
    · rw [if_neg c2]
      by_cases c3 : n % 2 = 0
      · rw [if_pos c3]
        exact hm n (Or.inl rfl) (hbelow c2)
      · rw [if_neg c3]
        exact hm (n + 1) (Or.inr rfl) habove


/-- The rounding returns a normalised mantissa, `2^52 ≤ m < 2^53`, and a value within
half a unit in the last place of `p / d`: it is a nearest binary64 value. -/
theorem roundFrac_spec (p d : ℕ) (hp : 1 ≤ p) (hd : 1 ≤ d) :
    2 ^ 52 ≤ (Binary64.roundFrac p d).1 ∧ (Binary64.roundFrac p d).1 < 2 ^ 53 ∧
      |(p : ℚ) / d - ((Binary64.roundFrac p d).1 : ℚ) * (2 : ℚ) ^ (Binary64.roundFrac p d).2|
        ≤ (2 : ℚ) ^ (Binary64.roundFrac p d).2 / 2 := by
  obtain ⟨hlo, hhi⟩ := scaled_range p d hp hd
  have hfl := scaled_eq_floor p d (53 + (Binary64.ilog2 d : ℤ) - (Binary64.ilog2 p : ℤ))
  unfold Binary64.roundFrac
  simp only []
  generalize (53 + (Binary64.ilog2 d : ℤ) - (Binary64.ilog2 p : ℤ)) = s at hlo hhi hfl ⊢
  have hnn : (0 : ℚ) ≤ (p : ℚ) / d * (2 : ℚ) ^ s := by positivity
  by_cases hc : Binary64.scaled p d s < 2 ^ 53
  · rw [if_pos hc]
    apply roundAt_spec p d hd s hlo.le
    rw [hfl, Nat.floor_lt hnn] at hc
    exact_mod_cast hc
  · rw [if_neg hc]
    have hge : (2 : ℚ) ^ 53 ≤ (p : ℚ) / d * (2 : ℚ) ^ s := by
      rw [hfl, not_lt, Nat.le_floor_iff hnn] at hc
      exact_mod_cast hc
    have e : (p : ℚ) / d * (2 : ℚ) ^ (s - 1) = (p : ℚ) / d * (2 : ℚ) ^ s / 2 := by
      rw [zpow_sub_one₀ (by norm_num : (2 : ℚ) ≠ 0)]
      ring
    apply roundAt_spec p d hd (s - 1)
    · rw [e]; linarith
    · rw [e]; linarith

/-- Checks of the rounding: `0.1` is `0x1.999999999999Ap-4`, `1/3` is
`0x1.5555555555555p-2`, `2^53 + 1` is a tie and goes to the even `2^53`. -/
theorem binary64_rounding_checks :
    Binary64.ofFrac false 1 10 = { neg := false, m := 0x1999999999999A, e := -56 } ∧
      Binary64.ofFrac false 1 3 = { neg := false, m := 0x15555555555555, e := -54 } ∧
      Binary64.ofFrac false (2 ^ 53 + 1) 1 = { neg := false, m := 2 ^ 52, e := 1 } ∧
      Binary64.ofFrac true 3 1 = { neg := true, m := 3 * 2 ^ 51, e := -51 } := by
  decide

/-- C12 (as stated, refuted): with `double` arithmetic the mean of `n = 3` copies of
`v = 0.1` is not `v`: accumulating from `0.0` gives `0.30000000000000004`
(`0x13333333333334 * 2^-54`) and dividing by `3` gives `0.10000000000000002`
(`0x1999999999999B * 2^-56`), one unit in the last place above
`0.1 = 0x1999999999999A * 2^-56`. -/
theorem C12_mean_of_constant_rounds :
    Binary64.ofFrac false 1 10 = { neg := false, m := 7205759403792794, e := -56 } ∧
      accumulateBinary64
          [Binary64.ofFrac false 1 10, Binary64.ofFrac false 1 10, Binary64.ofFrac false 1 10]
          0 3 Binary64.zero =
        some { neg := false, m := 5404319552844596, e := -54 } ∧
      Binary64.divInt { neg := false, m := 5404319552844596, e := -54 } 3 =
        some { neg := false, m := 7205759403792795, e := -56 } ∧
      ({ neg := false, m := 7205759403792795, e := -56 } : Binary64) ≠
        Binary64.ofFrac false 1 10 ∧
      Binary64.toRat { neg := false, m := 7205759403792795, e := -56 } -
          Binary64.toRat { neg := false, m := 7205759403792794, e := -56 } =
        (2 : ℚ) ^ (-56 : ℤ) := by
  refine ⟨by decide, ?_, by decide, by decide, ?_⟩
  · rw [accumulateBinary64, if_neg (by decide), dif_pos (by decide),
      accumulateBinary64, if_neg (by decide), dif_pos (by decide),
      accumulateBinary64, if_neg (by decide), dif_pos (by decide),
      accumulateBinary64, if_pos rfl]
    decide
  · simp only [Binary64.toRat]
    norm_num

end WaveGen
